import Mathlib

/-!
Verification of the study-plan generation pipeline:

* `app/utils/study_plan_validator.py` — `parse_checklist_text`,
  `validate_checklist`, and the pydantic `ChecklistItem` / `Checklist` models;
* `app/services/enhanced_study_plan.py` — `_create_document_outline`,
  `_generate_plan_with_critique`, `_create_structured_plan`;
* `app/utils/document_parser.py` — `filter_documents_by_goal`.

Python strings are modelled as `List Char` (`Text`).  The character classes
`\d` and `\s` and `str.strip` / `str.lower` are modelled on their ASCII
behaviour; every concrete input used below is ASCII apart from the fixed
glyphs `—`, `★` and `↳` which the classes treat correctly.
-/

namespace StudyPlan

/-- Python strings, modelled as lists of characters. -/
abbrev Text := List Char

/-- Python `\s` (whitespace class), ASCII part. -/
def isSpaceC (c : Char) : Bool :=
  c = ' ' || c = '\t' || c = '\n' || c = '\r' || c = '\x0b' || c = '\x0c'

/-- Python `\d` (decimal digit class), ASCII part. -/
def isDigitC (c : Char) : Bool := c.isDigit

/-- The character class `[^—]` of the item grammar. -/
def notDashC (c : Char) : Bool := !(c = '—')

/-- The character class `[^\[]` of the item grammar. -/
def notLBrackC (c : Char) : Bool := !(c = '[')

/-- The character class `★` (the effort glyph, matched by `★+`). -/
def isStarC (c : Char) : Bool := c = '★'

/-- The character class `[^\n]` of the prompt continuation. -/
def notNlC (c : Char) : Bool := !(c = '\n')

/-- Python `str.strip()`: drop leading and trailing whitespace. -/
def strip (s : Text) : Text :=
  ((s.dropWhile isSpaceC).reverse.dropWhile isSpaceC).reverse

/-- Python `str.lower()`, character-wise (ASCII behaviour). -/
def lowerT (s : Text) : Text := s.map Char.toLower

/-- Python `needle in hay` on strings: substring containment. -/
def containsSub (hay needle : Text) : Bool :=
  (List.range (hay.length + 1)).any (fun i => needle.isPrefixOf (hay.drop i))

/-- Python `sep.join(parts)`. -/
def joinSep (sep : Text) : List Text → Text
  | [] => []
  | [t] => t
  | t :: ts => t ++ sep ++ joinSep sep ts

/-- Auxiliary for `natToChars`: fuel-driven decimal digit accumulation. -/
def natToCharsAux : Nat → Nat → Text → Text
  | 0, _, acc => acc
  | fuel + 1, n, acc =>
    let acc' := Char.ofNat (48 + n % 10) :: acc
    if n < 10 then acc' else natToCharsAux fuel (n / 10) acc'

/-- Python `str(n)` for a non-negative integer: decimal rendering. -/
def natToChars (n : Nat) : Text := natToCharsAux (n + 1) n []

/-- Python `int(s)` on a string of decimal digits. -/
def charsToNat (s : Text) : Nat :=
  s.foldl (fun n c => n * 10 + (c.toNat - 48)) 0

/-!
## A backtracking regular-expression engine

`parse_checklist_text` applies the Python pattern

  `(\d+)\.\s+([^—]+)—\s+([^\[]+)\s+\[(Core|Practice|Overview|Optional)\]\s+(★+)`
  `(?:\s*↳\s*Prompt:\s*([^\n]+))?`

with `re.finditer` (the `re.MULTILINE` flag only affects `^`/`$`, which the
pattern does not use).  Every repetition in the pattern ranges over a single
character class, so the pattern is represented as a token list and matched by
a backtracking engine with Python's leftmost / greedy / first-alternative
semantics.  The trailing optional group is matched separately after the
mandatory part (it is at the end of the pattern and the empty alternative of
`(?: … )?` always succeeds, so it never forces re-matching of the mandatory
part).
-/

/-- Capture environment: group index to captured text (unset groups are `[]`). -/
abbrev Caps := Nat → Text

/-- Record a capture (group `none` is a non-capturing repetition). -/
def setCap (caps : Caps) (g : Option Nat) (v : Text) : Caps :=
  match g with
  | none => caps
  | some i => fun j => if j = i then v else caps j

/-- The empty capture environment. -/
def caps0 : Caps := fun _ => []

/-- Length of the maximal prefix of `s` whose characters satisfy `p`. -/
def runLen (p : Char → Bool) : Text → Nat
  | [] => 0
  | c :: s => if p c then runLen p s + 1 else 0

/-- `[n, n-1, …, 1]`: the candidate lengths of a greedy `+` repetition. -/
def countdown : Nat → List Nat
  | 0 => []
  | n + 1 => (n + 1) :: countdown n

/-- One token of the compiled pattern. -/
inductive Tok where
  | lit : Char → Tok
  | plus : Option Nat → (Char → Bool) → Tok
  | star : (Char → Bool) → Tok
  | alts : Nat → List Text → Tok

/-- Backtracking matcher, anchored at the start of the input.  Greedy
repetitions try the longest candidate first; alternations try the
alternatives in written order; failure of the continuation backtracks. -/
def matchToks : List Tok → Caps → Text → Option (Caps × Text)
  | [], caps, s => some (caps, s)
  | .lit ch :: ts, caps, s =>
    match s with
    | [] => none
    | c :: s' => if c = ch then matchToks ts caps s' else none
  | .plus g p :: ts, caps, s =>
    (countdown (runLen p s)).findSome?
      (fun k => matchToks ts (setCap caps g (s.take k)) (s.drop k))
  | .star p :: ts, caps, s =>
    (countdown (runLen p s) ++ [0]).findSome?
      (fun k => matchToks ts caps (s.drop k))
  | .alts g cands :: ts, caps, s =>
    cands.findSome?
      (fun l => if l.isPrefixOf s then
          matchToks ts (setCap caps (some g) l) (s.drop l.length)
        else none)

/-- Literal token sequence for a fixed string. -/
def litToks (t : Text) : List Tok := t.map .lit

def tagCore : Text := "Core".data
def tagPractice : Text := "Practice".data
def tagOverview : Text := "Overview".data
def tagOptional : Text := "Optional".data

/-- The four tag alternatives, in the order they appear in the pattern. -/
def tagList : List Text := [tagCore, tagPractice, tagOverview, tagOptional]

/-- The mandatory part of the item pattern:
`(\d+)\.\s+([^—]+)—\s+([^\[]+)\s+\[(Core|Practice|Overview|Optional)\]\s+(★+)`. -/
def itemPat : List Tok :=
  [.plus (some 1) isDigitC, .lit '.', .plus none isSpaceC,
   .plus (some 2) notDashC, .lit '—', .plus none isSpaceC,
   .plus (some 3) notLBrackC, .plus none isSpaceC, .lit '[',
   .alts 4 tagList, .lit ']', .plus none isSpaceC, .plus (some 5) isStarC]

/-- The optional prompt continuation: `\s*↳\s*Prompt:\s*([^\n]+)`. -/
def promptPat : List Tok :=
  [.star isSpaceC, .lit '↳', .star isSpaceC] ++ litToks "Prompt:".data ++
    [.star isSpaceC, .plus (some 6) notNlC]

/-- One parsed checklist item: the dictionary built by
`parse_checklist_text` (also the field set of the pydantic `ChecklistItem`). -/
structure ChecklistItem where
  number : Nat
  label : Text
  objective : Text
  tag : Text
  effort : Nat
  prompt : Option Text
deriving DecidableEq, Repr

/-- Try to match one checklist item at the start of `s`; on success return
the item built exactly as in `parse_checklist_text` (`int` of group 1,
`strip` of groups 2 and 3, the tag text of group 4, the star count of
group 5, and the stripped optional group 6) together with the rest of the
input after the match. -/
def tryMatch (s : Text) : Option (ChecklistItem × Text) :=
  match matchToks itemPat caps0 s with
  | none => none
  | some (caps, rest) =>
    match matchToks promptPat caps rest with
    | some (caps', rest') =>
      some ({ number := charsToNat (caps' 1), label := strip (caps' 2),
              objective := strip (caps' 3), tag := caps' 4,
              effort := (caps' 5).length,
              prompt := some (strip (caps' 6)) }, rest')
    | none =>
      some ({ number := charsToNat (caps 1), label := strip (caps 2),
              objective := strip (caps 3), tag := caps 4,
              effort := (caps 5).length, prompt := none }, rest)

/-- `re.finditer` scan: non-overlapping matches, scanning left to right and
resuming after each match.  The fuel argument is initialised with the input
length; every step either consumes the matched item text (at least one
character) or advances one character, so the fuel never runs out early. -/
def scanAux : Nat → Text → List ChecklistItem
  | 0, _ => []
  | _ + 1, [] => []
  | fuel + 1, c :: s' =>
    match tryMatch (c :: s') with
    | some (it, rest) => it :: scanAux fuel rest
    | none => scanAux fuel s'

/-- `parse_checklist_text` from `app/utils/study_plan_validator.py`. -/
def parse_checklist_text (t : Text) : List ChecklistItem :=
  scanAux t.length t

/-!
## `validate_checklist` and the pydantic models

`validate_checklist` parses the text, returns
`(False, "Failed to parse checklist format")` on an empty item list, and
otherwise constructs `Checklist(items=items)`.  The code uses the pydantic
v1 validator API (`@pydantic.validator`): the elements of `items` are
validated in order (within an element, the `tag` validator runs before the
`effort` validator, following field declaration order); *all* element errors
are collected into one `ValidationError`; the whole-list validator
(`validate_items`: count, Practice tag, reflection prompt, raising at its
first violation) runs only when every element validated cleanly.  The
`except` branch returns `(False, str(e))`, where `str` of a
`ValidationError` is the v1 rendering modelled by `renderVErrs`.
-/

/-- One entry of a pydantic `ValidationError`: either an error located at
`items -> idx -> field` or one located at `items` (from `validate_items`). -/
inductive VErr where
  | itemErr : Nat → Text → Text → VErr
  | listErr : Text → VErr
deriving DecidableEq, Repr

/-- Message of the `tag` validator.  (The Python source interpolates the
`valid_tags` *set* into this message; the set's rendering order is
hash-dependent and no theorem below depends on this string, so the set is
rendered here in insertion order without braces or quotes.) -/
def tagMsg : Text :=
  "Tag must be one of Core, Practice, Overview, Optional".data

/-- Message of the `effort` validator. -/
def effortMsg : Text := "Effort must be between 1 and 5 stars".data

/-- First message of `validate_items`. -/
def countMsg : Text := "Checklist should have at most 15 items".data

/-- Second message of `validate_items`. -/
def practiceMsg : Text := "Checklist must include at least one Practice item".data

/-- Third message of `validate_items`. -/
def promptMsg : Text := "Checklist must include at least one reflection prompt".data

/-- Message returned by `validate_checklist` when parsing yields no items. -/
def parseFailMsg : Text := "Failed to parse checklist format".data

/-- The `tag` field validator: membership in the tag taxonomy. -/
def tagOKb (it : ChecklistItem) : Bool := tagList.any (fun t => t = it.tag)

/-- The `effort` field validator: `1 <= effort <= 5`. -/
def effortOKb (it : ChecklistItem) : Bool := 1 ≤ it.effort && it.effort ≤ 5

/-- Python truthiness of `item.prompt` (`None` and the empty string are falsy). -/
def promptTruthy (it : ChecklistItem) : Bool :=
  match it.prompt with
  | some p => !p.isEmpty
  | none => false

/-- Errors contributed by one list element: the `tag` validator, then the
`effort` validator (field declaration order). -/
def itemFieldErrors (idx : Nat) (it : ChecklistItem) : List VErr :=
  (if tagOKb it then [] else [.itemErr idx "tag".data tagMsg]) ++
    (if effortOKb it then [] else [.itemErr idx "effort".data effortMsg])

/-- All element errors of `Checklist(items=…)`, in element order, indices
starting at `i`. -/
def allItemErrorsAux (i : Nat) : List ChecklistItem → List VErr
  | [] => []
  | it :: rest => itemFieldErrors i it ++ allItemErrorsAux (i + 1) rest

/-- All element errors of `Checklist(items=…)`, in element order. -/
def allItemErrors (items : List ChecklistItem) : List VErr :=
  allItemErrorsAux 0 items

/-- The `validate_items` whole-list validator, which raises at its first
violation; it runs only when every element validated cleanly. -/
def wholeErrors (items : List ChecklistItem) : List VErr :=
  if items.length > 15 then [.listErr countMsg]
  else if !items.any (fun it => it.tag = tagPractice) then [.listErr practiceMsg]
  else if !items.any promptTruthy then [.listErr promptMsg]
  else []

/-- The full error list of `Checklist(items=items)` (empty iff construction
succeeds). -/
def checklistErrors (items : List ChecklistItem) : List VErr :=
  let ie := allItemErrors items
  if ie.isEmpty then wholeErrors items else ie

/-- Pydantic v1 rendering of one error inside `str(ValidationError)`. -/
def renderVErr : VErr → Text
  | .itemErr idx fld msg =>
    "\nitems -> ".data ++ natToChars idx ++ " -> ".data ++ fld ++
      "\n  ".data ++ msg ++ " (type=value_error)".data
  | .listErr msg =>
    "\nitems\n  ".data ++ msg ++ " (type=value_error)".data

/-- Pydantic v1 `str(ValidationError)` for the `Checklist` model. -/
def renderVErrs (errs : List VErr) : Text :=
  natToChars errs.length ++ " validation error".data ++
    (if errs.length = 1 then [] else "s".data) ++ " for Checklist".data ++
    (errs.map renderVErr).flatten

/-- `validate_checklist` from `app/utils/study_plan_validator.py`.  The
`try`/`except` there catches the `ValidationError` raised by
`Checklist(items=items)` and returns `(False, str(e))`; no other statement
in the body can raise. -/
def validate_checklist (t : Text) : Bool × Option Text :=
  let items := parse_checklist_text t
  if items.isEmpty then (false, some parseFailMsg)
  else
    match checklistErrors items with
    | [] => (true, none)
    | errs => (false, some (renderVErrs errs))

/-!
## `filter_documents_by_goal` (`app/utils/document_parser.py`)

A content segment is a `LangchainDocument`; the goal filter and the outline
builder read only its `page_content`, kept here together with the `page`
metadata.
-/

/-- A content segment (`LangchainDocument`): its text and source page. -/
structure Segment where
  text : Text
  page : Nat
deriving DecidableEq, Repr

/-- `filter_documents_by_goal`: pass-through on an empty keyword list;
otherwise keep segments whose lowercased text contains some lowercased
keyword, falling back to the whole input when the filter result is empty
and the input was not. -/
def filter_documents_by_goal (docs : List Segment)
    (goal_keywords : List Text) : List Segment :=
  if goal_keywords.isEmpty then docs
  else
    let lowercase_keywords := goal_keywords.map lowerT
    let filtered_docs := docs.filter
      (fun d => lowercase_keywords.any (fun kw => containsSub (lowerT d.text) kw))
    if filtered_docs.isEmpty && !docs.isEmpty then docs else filtered_docs

/-!
## Outline construction (`app/services/enhanced_study_plan.py`)
-/

/-- The truncation notice appended by `_create_document_outline`. -/
def truncNotice : Text := "\n\n[Content truncated due to length...]".data

/-- `_create_document_outline`: join the segment texts with blank lines and
truncate at 12000 characters. -/
def create_document_outline (docs : List Segment) : Text :=
  let all_content := joinSep "\n\n".data (docs.map (·.text))
  if all_content.length > 12000 then all_content.take 12000 ++ truncNotice
  else all_content

/-- The placeholder sentence substituted by `_generate_plan_with_critique`
when the outline is empty or strips to fewer than 20 characters. -/
def placeholderText : Text :=
  ("No document content was successfully extracted. " ++
    "This document may contain primarily images or non-textual content.").data

/-- The outline normalisation at the top of `_generate_plan_with_critique`:
`if not outline or len(outline.strip()) < 20: outline = …placeholder…`. -/
def normalizeOutline (o : Text) : Text :=
  if o = [] ∨ (strip o).length < 20 then placeholderText else o

/-!
## The revision loop (`_generate_plan_with_critique`)

The generation and critique oracles are modelled as response streams
(`Nat → Text`, indexed by call count), which covers every possible oracle
behaviour; the loop records for each iteration of
`for attempt in range(max_retries)` the plan text examined, the validation
outcome, each critique result obtained for that text (`critique_checklist`
is always invoked on `current_plan_content`), and the feedback interpolated
into the revision prompt.  The Python `if not critique:` test re-invokes the
critic when the first critique result was the *empty string* (falsy), and
the f-string `{critique if critique != "OK" else error}` renders `error`,
which is `None` when validation passed, as the text `None`.
-/

/-- The literal `"OK"` compared against the critique result. -/
def okText : Text := "OK".data

/-- Python `str(None)`, as interpolated by an f-string. -/
def noneText : Text := "None".data

/-- Trace record of one iteration of the revision loop. -/
structure Attempt where
  planText : Text
  isValid : Bool
  errMsg : Option Text
  critResults : List Text
  accepted : Bool
  feedback : Option Text
deriving DecidableEq, Repr

/-- Result of the revision loop: the returned raw text, the per-iteration
trace, and the number of generation / critique oracle calls. -/
structure LoopResult where
  finalText : Text
  attempts : List Attempt
  genCalls : Nat
  critCalls : Nat
deriving DecidableEq, Repr

/-- The revision-attempt discipline actually implemented for a failed
validation: exactly one critique call is made (on the failing text), and
the feedback interpolated into the revision request is the critique text
unless that text is exactly `OK`, in which case it is the structural
error message. -/
def critFeedbackSpec (a : Attempt) : Prop :=
  a.isValid = false →
    a.critResults.length = 1 ∧
      a.feedback = some (if a.critResults.headD [] = okText
        then a.errMsg.getD [] else a.critResults.headD [])

/-- The body of the `for attempt in range(max_retries)` loop.  `g` and `c`
count generation and critique calls made so far; `current` is
`current_plan_content`. -/
def loopAux (genO critO : Nat → Text) :
    Nat → Text → Nat → Nat → List Attempt → LoopResult
  | 0, current, g, c, acc => ⟨current, acc.reverse, g, c⟩
  | rem + 1, current, g, c, acc =>
    let v := validate_checklist current
    if v.1 then
      let k1 := critO c
      if k1 = okText then
        ⟨current, (⟨current, true, v.2, [k1], true, none⟩ :: acc).reverse,
          g, c + 1⟩
      else if k1 = [] then
        -- `if not critique:` with `critique == ""`: a second critique call
        let k2 := critO (c + 1)
        let fb := if k2 = okText then noneText else k2
        loopAux genO critO rem (genO g) (g + 1) (c + 2)
          (⟨current, true, v.2, [k1, k2], false, some fb⟩ :: acc)
      else
        loopAux genO critO rem (genO g) (g + 1) (c + 1)
          (⟨current, true, v.2, [k1], false, some k1⟩ :: acc)
    else
      let k := critO c
      let fb := if k = okText then v.2.getD [] else k
      loopAux genO critO rem (genO g) (g + 1) (c + 1)
        (⟨current, false, v.2, [k], false, some fb⟩ :: acc)

/-- `_generate_plan_with_critique`, oracle calls abstracted: one initial
generation call, then the bounded self-critique loop. -/
def generate_plan_with_critique (genO critO : Nat → Text)
    (max_retries : Nat) : LoopResult :=
  loopAux genO critO max_retries (genO 0) 1 0 []

/-!
## `_create_structured_plan`
-/

/-- One block of `weekly_breakdown`. -/
structure WeekBreakdown where
  week : Nat
  title : Text
  estimated_minutes : Nat
  learning_objectives : List Text
  resources : List Text
  activities : List Text
  assessment : Text
  checklist : List ChecklistItem
deriving DecidableEq, Repr

/-- The persisted structured plan. -/
structure StructuredPlan where
  goals : List Text
  duration_weeks : Nat
  weekly_breakdown : List WeekBreakdown
deriving DecidableEq, Repr

/-- `_create_structured_plan` from `app/services/enhanced_study_plan.py`:
parse the final text, take up to three objectives as goals, and build the
single-week breakdown when items exist. -/
def create_structured_plan (checklist_text : Text) : StructuredPlan :=
  let items := parse_checklist_text checklist_text
  let goals := if items.isEmpty then []
    else (items.take 3).map (·.objective)
  if items.isEmpty then
    { goals := goals, duration_weeks := 1, weekly_breakdown := [] }
  else
    { goals := goals, duration_weeks := 1,
      weekly_breakdown :=
        [{ week := 1, title := "Medical Document Study Week".data,
           estimated_minutes := items.length * 30,
           learning_objectives := items.map (·.objective),
           resources := [],
           activities := items.map (fun it =>
             natToChars it.number ++ ". ".data ++ it.label ++ " — ".data ++
               it.objective),
           assessment := "Review all items and answer reflection prompts".data,
           checklist := items }] }

/-!
## Spec-side definitions

The renderer below is *modelled from the spec*, §6: the repository contains
no checklist renderer, and the grammar round-trip claim quantifies over
rendered checklists.  The grammar line is
`<N>. <label> — <objective> [<tag>] <stars>` with an optional continuation
`   ↳ Prompt: <text>`; items are rendered on consecutive lines.
-/

/-- Modelled from the spec: render one checklist item to the §6 line
grammar. -/
def renderItemSpec (it : ChecklistItem) : Text :=
  natToChars it.number ++ ". ".data ++ it.label ++ " — ".data ++
    it.objective ++ " [".data ++ it.tag ++ "] ".data ++
    List.replicate it.effort '★' ++
    (match it.prompt with
     | some p => "\n   ↳ Prompt: ".data ++ p
     | none => [])

/-- Modelled from the spec: render a checklist, one item per line block. -/
def renderChecklistSpec (items : List ChecklistItem) : Text :=
  joinSep "\n".data (items.map renderItemSpec)

/-- Spec predicate: the `number` sequence is contiguous starting at 1. -/
def contiguousFrom1 (ns : List Nat) : Bool :=
  ns = List.range' 1 ns.length

/-- Spec predicate: the whole-checklist invariants of §3 (count, Practice
item, reflection prompt, contiguous numbering). -/
def wholeInvariantsB (items : List ChecklistItem) : Bool :=
  items.length ≤ 15 && items.any (fun it => it.tag = tagPractice) &&
    items.any promptTruthy && contiguousFrom1 (items.map (·.number))

/-- Sufficient conditions on one item for the line grammar round-trip: the
label is non-empty, free of the em dash and carries no outer whitespace;
the objective is non-empty, free of `[` and carries no outer whitespace;
the tag is in the taxonomy; the effort is in `[1,5]`; a prompt, when
present, is non-empty, newline-free and carries no outer whitespace. -/
def renderableB (it : ChecklistItem) : Bool :=
  !it.label.isEmpty && strip it.label = it.label && '—' ∉ it.label &&
    !it.objective.isEmpty && strip it.objective = it.objective &&
    '[' ∉ it.objective && tagOKb it && effortOKb it &&
    (match it.prompt with
     | some p => !p.isEmpty && strip p = p && '\n' ∉ p
     | none => true)

/-- The per-element validators of the pydantic `ChecklistItem`, combined. -/
def itemOKb (it : ChecklistItem) : Bool := tagOKb it && effortOKb it

/-!
# Theorems
-/

/-- C10: `validate_checklist` is total — modelled as a plain function it
always returns a boolean/optional-message pair (the Python `try`/`except`
maps the pydantic `ValidationError` to `(False, str(e))`), and it carries a
message exactly when the boolean is `False`. -/
theorem c10_validate_total_shape (t : Text) :
    (validate_checklist t).2.isSome = !(validate_checklist t).1 := by
  by_cases h : (parse_checklist_text t).isEmpty
  · simp [validate_checklist, h]
  · rcases h2 : checklistErrors (parse_checklist_text t) with _ | ⟨e, es⟩ <;>
      simp [validate_checklist, h, h2]

/-- C7: the Structured Plan Assembler is total (a plain function); its
`goals` are the objectives of up to the first three parsed items, its
`duration_weeks` is 1, its `weekly_breakdown` has exactly one block when
items exist and none otherwise, and the estimated minutes of that block are
the item count times 30. -/
theorem c7_assembler_shape (t : Text) :
    (create_structured_plan t).goals =
        ((parse_checklist_text t).map (·.objective)).take 3 ∧
      (create_structured_plan t).duration_weeks = 1 ∧
      (create_structured_plan t).weekly_breakdown.length =
        (if (parse_checklist_text t).isEmpty then 0 else 1) ∧
      (create_structured_plan t).weekly_breakdown.map (·.estimated_minutes) =
        (if (parse_checklist_text t).isEmpty then []
         else [(parse_checklist_text t).length * 30]) := by
  unfold create_structured_plan
  by_cases h : (parse_checklist_text t).isEmpty
  · simp [h, List.isEmpty_iff.mp h]
  · simp [h, List.map_take]

/-- C4: the goal filter is the identity on an empty keyword list, and when
no segment text contains any keyword case-insensitively it falls back to
returning the original segment list unchanged (fail-open). -/
theorem c4_filter_pass_through (docs : List Segment) (kws : List Text) :
    (kws = [] → filter_documents_by_goal docs kws = docs) ∧
      (docs ≠ [] →
        docs.all (fun d =>
          kws.all (fun kw => !containsSub (lowerT d.text) (lowerT kw))) = true →
        filter_documents_by_goal docs kws = docs) := by
  constructor
  · intro hk
    subst hk
    rfl
  · intro hd hall
    unfold filter_documents_by_goal
    by_cases hk : kws.isEmpty
    · simp [hk]
    · have hfil : docs.filter (fun d =>
          (kws.map lowerT).any (fun kw => containsSub (lowerT d.text) kw)) = [] := by
        rw [List.filter_eq_nil_iff]
        intro d hdmem
        simp only [List.any_map, List.any_eq_true, Function.comp]
        rintro ⟨kw, hkw, hc⟩
        rw [List.all_eq_true] at hall
        have := hall d hdmem
        rw [List.all_eq_true] at this
        have := this kw hkw
        simp only [Bool.not_eq_true'] at this
        rw [this] at hc
        exact Bool.false_ne_true hc
      simp only [hk, if_false, hfil]
      simp [List.isEmpty_eq_false_iff_exists_mem.mpr, hd]

/-- C4 witness: concrete segments and keywords with no match. -/
theorem c4_filter_pass_through_witness :
    ([⟨"abc".data, 0⟩] : List Segment) ≠ [] ∧
      ([⟨"abc".data, 0⟩] : List Segment).all (fun d =>
        (["xy".data] : List Text).all
          (fun kw => !containsSub (lowerT d.text) (lowerT kw))) = true ∧
      filter_documents_by_goal [⟨"abc".data, 0⟩] ["xy".data] =
        [⟨"abc".data, 0⟩] :=
  ⟨by decide, by decide,
    (c4_filter_pass_through [⟨"abc".data, 0⟩] ["xy".data]).2 (by decide) (by decide)⟩

/-- C9 counterexample: on the raw text `1.  — x [Core] ★` the parser
produces one item whose `label` is the empty string (the matched label span
is a single space, which `strip` empties), refuting the claim that every
parsed item has a non-empty label and objective. -/
theorem c9_counterexample :
    (parse_checklist_text "1.  — x [Core] ★".data).map (·.label) = [[]] := by
  decide

/-- C6 counterexample: the text `5. … 2. …` below is accepted by
`validate_checklist` although its `number` sequence `(5, 2)` is not
contiguous starting at 1 — the validator never inspects the numbers. -/
theorem c6_counterexample :
    validate_checklist
        "5. A — b [Practice] ★\n   ↳ Prompt: p\n2. C — d [Core] ★".data =
        (true, none) ∧
      contiguousFrom1
        ((parse_checklist_text
          "5. A — b [Practice] ★\n   ↳ Prompt: p\n2. C — d [Core] ★".data).map
            (·.number)) = false := by
  constructor
  · decide
  · decide

/-- C3 counterexample: two inputs that agree on their first item (and on
the first violation — that item's six-star effort) but differ in the second
item produce different failure messages, because pydantic collects *all*
per-item violations instead of stopping at the first one; the two-violation
message is also not the single first-violation message. -/
theorem c3_counterexample :
    (validate_checklist
        "1. A — b [Practice] ★★★★★★\n   ↳ Prompt: p\n2. C — d [Core] ★★★★★★".data).1
        = false ∧
      (parse_checklist_text
        "1. A — b [Practice] ★★★★★★\n   ↳ Prompt: p\n2. C — d [Core] ★★★★★★".data).take 1 =
        (parse_checklist_text
          "1. A — b [Practice] ★★★★★★\n   ↳ Prompt: p\n2. C — d [Core] ★★★★★".data).take 1 ∧
      (validate_checklist
        "1. A — b [Practice] ★★★★★★\n   ↳ Prompt: p\n2. C — d [Core] ★★★★★".data).2 =
        some (renderVErrs [.itemErr 0 "effort".data effortMsg]) ∧
      (validate_checklist
        "1. A — b [Practice] ★★★★★★\n   ↳ Prompt: p\n2. C — d [Core] ★★★★★★".data).2 ≠
        (validate_checklist
          "1. A — b [Practice] ★★★★★★\n   ↳ Prompt: p\n2. C — d [Core] ★★★★★".data).2 := by
  refine ⟨by decide, by decide, by decide, by decide⟩

/-- C2 counterexample: when the generation oracle returns unparseable text
and the critique oracle returns `not ok`, the single revision attempt has
`isValid = false`, yet the Semantic Critic *is* invoked on that failing
text, and the feedback interpolated into the revision request is the
critique text, not the structural validation error message. -/
theorem c2_counterexample :
    (generate_plan_with_critique (fun _ => "garbage".data)
        (fun _ => "not ok".data) 1).attempts =
        [⟨"garbage".data, false, some parseFailMsg, ["not ok".data], false,
          some "not ok".data⟩] ∧
      "not ok".data ≠ parseFailMsg := by
  refine ⟨by decide, by decide⟩

/-- C1 counterexample: with max_retries = 2, a generation oracle that
always returns a structurally valid plan and a critique oracle that always
returns the empty string, the critique oracle is called four times — the
Python `if not critique:` test treats the empty critique as missing and
calls the critic a second time in the same iteration — exceeding the
claimed `max_retries + 1 = 3` bound. -/
theorem c1_counterexample :
    (generate_plan_with_critique
        (fun _ => "1. A — b [Practice] ★\n   ↳ Prompt: p".data)
        (fun _ => []) 2).critCalls = 4 ∧
      ¬((generate_plan_with_critique
          (fun _ => "1. A — b [Practice] ★\n   ↳ Prompt: p".data)
          (fun _ => []) 2).critCalls ≤ 2 + 1) := by
  refine ⟨by decide, by decide⟩

/-- C8 counterexample: the single-item checklist below satisfies every
structural invariant of the spec (valid tag, effort in range, count, a
Practice item, a prompt, contiguous numbering, non-empty label and
objective), yet rendering it to the line grammar and re-parsing yields no
items at all, because the label contains an em dash, which the `[^—]+`
label group of the parsing grammar can never span. -/
theorem c8_counterexample :
    ([⟨1, "a—b".data, "x".data, tagPractice, 1, some "p".data⟩] :
        List ChecklistItem).all itemOKb = true ∧
      wholeInvariantsB
        [⟨1, "a—b".data, "x".data, tagPractice, 1, some "p".data⟩] = true ∧
      ([⟨1, "a—b".data, "x".data, tagPractice, 1, some "p".data⟩] :
        List ChecklistItem).all
          (fun it => !it.label.isEmpty && !it.objective.isEmpty) = true ∧
      parse_checklist_text
        (renderChecklistSpec
          [⟨1, "a—b".data, "x".data, tagPractice, 1, some "p".data⟩]) ≠
        [⟨1, "a—b".data, "x".data, tagPractice, 1, some "p".data⟩] := by
  refine ⟨by decide, by decide, by decide, by decide⟩

/-- Oracle-call bound for the revision loop body: starting with `g`
generation and `c` critique calls recorded and `rem` iterations left, the
loop adds at most `rem` generation calls and at most `2 * rem` critique
calls. -/
theorem loopAux_calls (genO critO : Nat → Text) :
    ∀ rem current g c acc,
      (loopAux genO critO rem current g c acc).genCalls ≤ g + rem ∧
        (loopAux genO critO rem current g c acc).critCalls ≤ c + 2 * rem := by
  intro rem
  induction rem with
  | zero =>
    intro current g c acc
    refine ⟨?_, ?_⟩ <;> simp [loopAux]
  | succ n ih =>
    intro current g c acc
    simp only [loopAux]
    by_cases hv : (validate_checklist current).1 = true
    · simp only [hv, if_true]
      by_cases h1 : critO c = okText
      · simp only [h1, if_true]
        exact ⟨Nat.le_add_right _ _, Nat.add_le_add_left (by omega) c⟩
      · simp only [h1, if_false]
        by_cases h2 : critO c = []
        · simp only [h2, if_true]
          exact ⟨le_trans (ih _ _ _ _).1 (by omega),
            le_trans (ih _ _ _ _).2 (by omega)⟩
        · simp only [h2, if_false]
          exact ⟨le_trans (ih _ _ _ _).1 (by omega),
            le_trans (ih _ _ _ _).2 (by omega)⟩
    · simp only [hv, if_false]
      exact ⟨le_trans (ih _ _ _ _).1 (by omega),
        le_trans (ih _ _ _ _).2 (by omega)⟩

/-- C1 amended: the loop always terminates (it is a total function of the
oracle streams) with at most `1 + max_retries` generation calls, and at
most `2 * max_retries` critique calls — not `max_retries + 1`: an empty
critique string on a valid plan triggers a second critique call in the
same iteration. -/
theorem c1_amended_bounds (genO critO : Nat → Text) (max_retries : Nat) :
    (generate_plan_with_critique genO critO max_retries).genCalls ≤
        1 + max_retries ∧
      (generate_plan_with_critique genO critO max_retries).critCalls ≤
        2 * max_retries := by
  have h := loopAux_calls genO critO max_retries (genO 0) 1 0 []
  exact ⟨le_trans h.1 (by omega), le_trans h.2 (by omega)⟩

/-- Every attempt record produced by the loop obeys `critFeedbackSpec`,
given that the already-accumulated records do. -/
theorem loopAux_attempts_prop (genO critO : Nat → Text) :
    ∀ rem current g c acc,
      (∀ a ∈ acc, critFeedbackSpec a) →
      ∀ a ∈ (loopAux genO critO rem current g c acc).attempts,
        critFeedbackSpec a := by
  intro rem
  induction rem with
  | zero =>
    intro current g c acc hacc a ha
    simp only [loopAux] at ha
    exact hacc a (List.mem_reverse.mp ha)
  | succ n ih =>
    intro current g c acc hacc a ha
    simp only [loopAux] at ha
    by_cases hv : (validate_checklist current).1 = true
    · simp only [hv, if_true] at ha
      by_cases h1 : critO c = okText
      · simp only [h1, if_true] at ha
        rcases List.mem_cons.mp (List.mem_reverse.mp ha) with hmem | hmem
        · subst hmem
          intro hfalse
          simp_all
        · exact hacc a hmem
      · simp only [h1, if_false] at ha
        by_cases h2 : critO c = []
        · simp only [h2, if_true] at ha
          refine ih _ _ _ _ ?_ a ha
          intro b hb
          rcases List.mem_cons.mp hb with hb | hb
          · subst hb
            intro hfalse
            simp_all
          · exact hacc b hb
        · simp only [h2, if_false] at ha
          refine ih _ _ _ _ ?_ a ha
          intro b hb
          rcases List.mem_cons.mp hb with hb | hb
          · subst hb
            intro hfalse
            simp_all
          · exact hacc b hb
    · simp only [hv, if_false] at ha
      refine ih _ _ _ _ ?_ a ha
      intro b hb
      rcases List.mem_cons.mp hb with hb | hb
      · subst hb
        intro hfalse
        exact ⟨rfl, rfl⟩
      · exact hacc b hb

/-- C2 amended: in every revision attempt where the Structural Validator
fails, the Semantic Critic *is* invoked (once, on the failing raw text —
`critique_checklist` always receives `current_plan_content`), and the
feedback message of the revision request is the critique text when it
differs from `OK`, and the structural validation error message only when
the critique is exactly `OK`. -/
theorem c2_amended_feedback (genO critO : Nat → Text) (max_retries : Nat) :
    ∀ a ∈ (generate_plan_with_critique genO critO max_retries).attempts,
      critFeedbackSpec a := by
  intro a ha
  exact loopAux_attempts_prop genO critO max_retries (genO 0) 1 0 []
    (by intro b hb; cases hb) a ha

/-- C2 amended witness: the concrete failing run of the counterexample
instantiates the amended feedback discipline. -/
theorem c2_amended_feedback_witness :
    (⟨"garbage".data, false, some parseFailMsg, ["crit".data], false,
        some "crit".data⟩ : Attempt) ∈
      (generate_plan_with_critique (fun _ => "garbage".data)
        (fun _ => "crit".data) 1).attempts ∧
      critFeedbackSpec
        ⟨"garbage".data, false, some parseFailMsg, ["crit".data], false,
          some "crit".data⟩ :=
  ⟨by decide,
    c2_amended_feedback (fun _ => "garbage".data) (fun _ => "crit".data) 1 _
      (by decide)⟩

/-- One element contributes no pydantic error exactly when both its field
validators pass. -/
theorem itemFieldErrors_eq_nil_iff (i : Nat) (it : ChecklistItem) :
    itemFieldErrors i it = [] ↔ itemOKb it = true := by
  unfold itemFieldErrors itemOKb
  by_cases h1 : tagOKb it <;> by_cases h2 : effortOKb it <;> simp [h1, h2]

/-- The element-error list is empty exactly when every element passes both
field validators. -/
theorem allItemErrorsAux_eq_nil_iff (items : List ChecklistItem) :
    ∀ i, (allItemErrorsAux i items = [] ↔ items.all itemOKb = true) := by
  induction items with
  | nil => intro i; simp [allItemErrorsAux]
  | cons it rest ih =>
    intro i
    simp [allItemErrorsAux, itemFieldErrors_eq_nil_iff, ih]

/-- `validate_items` raises no error exactly when the three whole-list
checks pass. -/
theorem wholeErrors_eq_nil_iff (items : List ChecklistItem) :
    wholeErrors items = [] ↔
      (items.length ≤ 15 ∧ items.any (fun it => it.tag = tagPractice) = true ∧
        items.any promptTruthy = true) := by
  unfold wholeErrors
  by_cases h1 : items.length > 15
  · simp [h1]
  · by_cases h2 : items.any (fun it => it.tag = tagPractice)
    · by_cases h3 : items.any promptTruthy
      · simp [h1, h2, h3]
        omega
      · simp [h1, h2, h3]
    · simp [h1, h2]

/-- Acceptance characterisation of `validate_checklist`: it returns `True`
exactly when the parsed list is non-empty, every element passes both field
validators, and the three whole-list checks pass. -/
theorem validate_true_iff (t : Text) :
    (validate_checklist t).1 = true ↔
      (parse_checklist_text t ≠ [] ∧
        (parse_checklist_text t).all itemOKb = true ∧
        (parse_checklist_text t).length ≤ 15 ∧
        (parse_checklist_text t).any (fun it => it.tag = tagPractice) = true ∧
        (parse_checklist_text t).any promptTruthy = true) := by
  by_cases hE : parse_checklist_text t = []
  · simp [validate_checklist, hE]
  · constructor
    · intro h
      rcases hch : checklistErrors (parse_checklist_text t) with _ | ⟨e, es⟩
      · have hie : allItemErrors (parse_checklist_text t) = [] := by
          unfold checklistErrors at hch
          by_cases hie : (allItemErrors (parse_checklist_text t)).isEmpty
          · exact List.isEmpty_iff.mp hie
          · simp only [hie, if_false] at hch
            exact hch
        have hwh : wholeErrors (parse_checklist_text t) = [] := by
          unfold checklistErrors at hch
          simp only [hie, List.isEmpty_nil, if_true] at hch
          exact hch
        have hw := (wholeErrors_eq_nil_iff _).mp hwh
        exact ⟨hE, (allItemErrorsAux_eq_nil_iff _ 0).mp hie, hw.1, hw.2.1, hw.2.2⟩
      · simp [validate_checklist, hE, hch] at h
    · rintro ⟨-, hall, hlen, hpr, hpm⟩
      have hie : allItemErrors (parse_checklist_text t) = [] :=
        (allItemErrorsAux_eq_nil_iff _ 0).mpr hall
      have hwh : wholeErrors (parse_checklist_text t) = [] :=
        (wholeErrors_eq_nil_iff _).mpr ⟨hlen, hpr, hpm⟩
      have hch : checklistErrors (parse_checklist_text t) = [] := by
        unfold checklistErrors
        simp [hie, hwh]
      simp [validate_checklist, hE, hch]

/-- The error list of an accepted-or-rejected checklist, when some element
fails a field validator: all element errors, aggregated. -/
theorem checklistErrors_of_item_failure {items : List ChecklistItem}
    (h : items.all itemOKb = false) :
    checklistErrors items = allItemErrors items := by
  have hne : allItemErrors items ≠ [] := by
    intro hnil
    rw [(allItemErrorsAux_eq_nil_iff _ 0).mp hnil] at h
    exact absurd h (by simp)
  unfold checklistErrors
  rcases h' : allItemErrors items with _ | ⟨e, es⟩
  · exact absurd h' hne
  · simp

/-- The error list when every element is clean: the whole-list checks. -/
theorem checklistErrors_of_items_ok {items : List ChecklistItem}
    (h : items.all itemOKb = true) :
    checklistErrors items = wholeErrors items := by
  have hie : allItemErrors items = [] := (allItemErrorsAux_eq_nil_iff _ 0).mpr h
  unfold checklistErrors
  simp [hie]

/-- C6 amended: acceptance by `validate_checklist` guarantees a non-empty
item list, valid tags, efforts in `[1, 5]`, at most 15 items, a
Practice-tagged item and a truthy prompt — but nothing about the `number`
fields, which the validator never inspects. -/
theorem c6_amended_accept_invariants (t : Text)
    (h : (validate_checklist t).1 = true) :
    parse_checklist_text t ≠ [] ∧
      (parse_checklist_text t).all itemOKb = true ∧
      (parse_checklist_text t).length ≤ 15 ∧
      (parse_checklist_text t).any (fun it => it.tag = tagPractice) = true ∧
      (parse_checklist_text t).any promptTruthy = true :=
  (validate_true_iff t).mp h

/-- C6 amended witness: a concrete accepted checklist text. -/
theorem c6_amended_accept_invariants_witness :
    (validate_checklist "1. A — b [Practice] ★\n   ↳ Prompt: p".data).1 = true ∧
      (parse_checklist_text "1. A — b [Practice] ★\n   ↳ Prompt: p".data ≠ [] ∧
        (parse_checklist_text "1. A — b [Practice] ★\n   ↳ Prompt: p".data).all
          itemOKb = true ∧
        (parse_checklist_text "1. A — b [Practice] ★\n   ↳ Prompt: p".data).length
          ≤ 15 ∧
        (parse_checklist_text "1. A — b [Practice] ★\n   ↳ Prompt: p".data).any
          (fun it => it.tag = tagPractice) = true ∧
        (parse_checklist_text "1. A — b [Practice] ★\n   ↳ Prompt: p".data).any
          promptTruthy = true) :=
  ⟨by decide, c6_amended_accept_invariants _ (by decide)⟩

/-- C3 amended: `validate_checklist` first rejects an empty parse with the
fixed parse-failure message; then the per-item checks run item by item (tag
before effort within an item) with *all* violations aggregated into one
pydantic message, rather than stopping at the first; only when every item
is clean do the whole-checklist checks run in the fixed order count,
Practice, prompt, reporting exactly the first violated one.  The input is
never mutated (the validator is a function of the text).  Acceptance is
equivalent to all checks passing. -/
theorem c3_amended_order (t : Text) :
    ((validate_checklist t).1 = true ↔
      (parse_checklist_text t ≠ [] ∧
        (parse_checklist_text t).all itemOKb = true ∧
        (parse_checklist_text t).length ≤ 15 ∧
        (parse_checklist_text t).any (fun it => it.tag = tagPractice) = true ∧
        (parse_checklist_text t).any promptTruthy = true)) ∧
      (parse_checklist_text t = [] →
        validate_checklist t = (false, some parseFailMsg)) ∧
      (parse_checklist_text t ≠ [] →
        (parse_checklist_text t).all itemOKb = false →
        validate_checklist t =
          (false, some (renderVErrs (allItemErrors (parse_checklist_text t))))) ∧
      (parse_checklist_text t ≠ [] →
        (parse_checklist_text t).all itemOKb = true →
        15 < (parse_checklist_text t).length →
        validate_checklist t = (false, some (renderVErrs [.listErr countMsg]))) ∧
      (parse_checklist_text t ≠ [] →
        (parse_checklist_text t).all itemOKb = true →
        (parse_checklist_text t).length ≤ 15 →
        (parse_checklist_text t).any (fun it => it.tag = tagPractice) = false →
        validate_checklist t =
          (false, some (renderVErrs [.listErr practiceMsg]))) ∧
      (parse_checklist_text t ≠ [] →
        (parse_checklist_text t).all itemOKb = true →
        (parse_checklist_text t).length ≤ 15 →
        (parse_checklist_text t).any (fun it => it.tag = tagPractice) = true →
        (parse_checklist_text t).any promptTruthy = false →
        validate_checklist t =
          (false, some (renderVErrs [.listErr promptMsg]))) := by
  refine ⟨validate_true_iff t, ?_, ?_, ?_, ?_, ?_⟩
  · intro hE
    simp [validate_checklist, hE]
  · intro hne hfail
    have hch := checklistErrors_of_item_failure hfail
    have hie : allItemErrors (parse_checklist_text t) ≠ [] := by
      intro hnil
      rw [(allItemErrorsAux_eq_nil_iff _ 0).mp hnil] at hfail
      exact absurd hfail (by simp)
    rcases h' : allItemErrors (parse_checklist_text t) with _ | ⟨e, es⟩
    · exact absurd h' hie
    · rw [h'] at hch
      simp [validate_checklist, hne, hch]
  · intro hne hok hlen
    have hch := checklistErrors_of_items_ok hok
    have hwh : wholeErrors (parse_checklist_text t) = [.listErr countMsg] := by
      unfold wholeErrors
      simp [hlen]
    rw [hwh] at hch
    simp [validate_checklist, hne, hch]
  · intro hne hok hlen hpr
    have hch := checklistErrors_of_items_ok hok
    have hwh : wholeErrors (parse_checklist_text t) = [.listErr practiceMsg] := by
      unfold wholeErrors
      simp [Nat.not_lt.mpr hlen, hpr]
    rw [hwh] at hch
    simp [validate_checklist, hne, hch]
  · intro hne hok hlen hpr hpm
    have hch := checklistErrors_of_items_ok hok
    have hwh : wholeErrors (parse_checklist_text t) = [.listErr promptMsg] := by
      unfold wholeErrors
      simp [Nat.not_lt.mpr hlen, hpr, hpm]
    rw [hwh] at hch
    simp [validate_checklist, hne, hch]

/-- C3 amended witness: a one-item checklist with no Practice tag hits the
ordered whole-checklist checks at the Practice violation. -/
theorem c3_amended_order_witness :
    (parse_checklist_text "1. A — b [Core] ★".data ≠ [] ∧
        (parse_checklist_text "1. A — b [Core] ★".data).all itemOKb = true ∧
        (parse_checklist_text "1. A — b [Core] ★".data).length ≤ 15 ∧
        (parse_checklist_text "1. A — b [Core] ★".data).any
          (fun it => it.tag = tagPractice) = false) ∧
      validate_checklist "1. A — b [Core] ★".data =
        (false, some (renderVErrs [.listErr practiceMsg])) :=
  ⟨⟨by decide, by decide, by decide, by decide⟩,
    ((c3_amended_order "1. A — b [Core] ★".data).2.2.2.2.1) (by decide)
      (by decide) (by decide) (by decide)⟩

/-- The head surviving a `dropWhile` fails the predicate. -/
theorem dropWhile_head_false {p : Char → Bool} :
    ∀ {l : Text} {c : Char} {t : Text},
      List.dropWhile p l = c :: t → p c = false := by
  intro l
  induction l with
  | nil => intro c t h; cases h
  | cons a l ih =>
    intro c t h
    by_cases ha : p a
    · rw [List.dropWhile_cons_of_pos ha] at h
      exact ih h
    · rw [List.dropWhile_cons_of_neg ha] at h
      cases h
      exact Bool.of_not_eq_true ha

/-- `strip` output is a prefix of the leading-whitespace-free form, so a
non-empty `strip` result starts with a non-whitespace character. -/
theorem strip_head_false {l : Text} {c : Char} {t : Text}
    (h : strip l = c :: t) : isSpaceC c = false := by
  have hsfx := List.dropWhile_suffix (l := (l.dropWhile isSpaceC).reverse)
    (p := isSpaceC)
  have hpref : strip l <+: l.dropWhile isSpaceC := by
    have h2 := List.reverse_prefix.mpr hsfx
    rw [List.reverse_reverse] at h2
    exact h2
  rcases hpref with ⟨r, hr⟩
  rw [h] at hr
  exact dropWhile_head_false hr.symm

/-- A non-empty `strip` result ends with a non-whitespace character. -/
theorem strip_last_false {l : Text} {c : Char} {t : Text}
    (h : strip l = t ++ [c]) : isSpaceC c = false := by
  have hrev : (strip l).reverse =
      ((l.dropWhile isSpaceC).reverse).dropWhile isSpaceC := by
    unfold strip
    rw [List.reverse_reverse]
  rw [h, List.reverse_append] at hrev
  simp only [List.reverse_cons, List.reverse_nil, List.nil_append,
    List.singleton_append] at hrev
  exact dropWhile_head_false hrev.symm

/-- `strip` is idempotent. -/
theorem strip_idem (l : Text) : strip (strip l) = strip l := by
  by_cases hnil : strip l = []
  · rw [hnil]
    rfl
  · obtain ⟨c, t, hct⟩ : ∃ c t, strip l = c :: t := by
      rcases h' : strip l with _ | ⟨c, t⟩
      · exact absurd h' hnil
      · exact ⟨c, t, rfl⟩
    obtain ⟨L, b, hLb⟩ : ∃ L b, strip l = L ++ [b] := by
      rcases (strip l).eq_nil_or_concat' with h' | ⟨L, b, h'⟩
      · exact absurd h' hnil
      · exact ⟨L, b, h'⟩
    have hc := strip_head_false hct
    have hb := strip_last_false hLb
    have h1 : (strip l).dropWhile isSpaceC = strip l := by
      rw [hct]
      exact List.dropWhile_cons_of_neg (by simp [hc])
    have h2 : ((strip l).reverse).dropWhile isSpaceC = (strip l).reverse := by
      rw [hLb, List.reverse_append]
      simp only [List.reverse_cons, List.reverse_nil, List.nil_append,
        List.singleton_append]
      rw [List.dropWhile_cons_of_neg (by simp [hb])]
    show (((strip l).dropWhile isSpaceC).reverse.dropWhile isSpaceC).reverse =
      strip l
    rw [h1, h2, List.reverse_reverse]

/-- Shape of a successful item match: the label and objective are `strip`
outputs. -/
theorem tryMatch_shape {s : Text} {it : ChecklistItem} {r : Text}
    (h : tryMatch s = some (it, r)) :
    (∃ x, it.label = strip x) ∧ ∃ y, it.objective = strip y := by
  unfold tryMatch at h
  split at h
  · cases h
  · split at h
    · cases h
      exact ⟨⟨_, rfl⟩, ⟨_, rfl⟩⟩
    · cases h
      exact ⟨⟨_, rfl⟩, ⟨_, rfl⟩⟩

/-- Every item emitted by the scan comes from a successful `tryMatch`. -/
theorem scanAux_mem :
    ∀ fuel (s : Text) it, it ∈ scanAux fuel s →
      ∃ s' r, tryMatch s' = some (it, r) := by
  intro fuel
  induction fuel with
  | zero => intro s it h; cases h
  | succ n ih =>
    intro s it h
    rcases s with _ | ⟨c, s'⟩
    · cases h
    · rcases hm : tryMatch (c :: s') with _ | ⟨⟨it0, rest⟩⟩
      · rw [scanAux, hm] at h
        exact ih s' it h
      · rw [scanAux, hm] at h
        rcases List.mem_cons.mp h with heq | hmem
        · exact ⟨c :: s', rest, heq ▸ hm⟩
        · exact ih rest it hmem

/-- C9 amended: every item produced by the Checklist Parser has a label
and an objective that carry no leading or trailing whitespace (they are
fixed points of `strip`); they may, however, be empty. -/
theorem c9_amended_stripped (t : Text) :
    ∀ it ∈ parse_checklist_text t,
      strip it.label = it.label ∧ strip it.objective = it.objective := by
  intro it hmem
  obtain ⟨s', r, h⟩ := scanAux_mem t.length t it hmem
  obtain ⟨⟨x, hx⟩, ⟨y, hy⟩⟩ := tryMatch_shape h
  rw [hx, hy]
  exact ⟨strip_idem x, strip_idem y⟩

/-- C9 amended witness: the parsed item of a concrete checklist line. -/
theorem c9_amended_stripped_witness :
    (⟨1, "A".data, "b".data, tagCore, 1, none⟩ : ChecklistItem) ∈
        parse_checklist_text "1. A — b [Core] ★".data ∧
      strip ("A".data) = "A".data ∧ strip ("b".data) = "b".data :=
  ⟨by decide,
    c9_amended_stripped "1. A — b [Core] ★".data
      ⟨1, "A".data, "b".data, tagCore, 1, none⟩ (by decide)⟩

/-- Dropping a satisfying replicated prefix. -/
theorem dropWhile_replicate_append {p : Char → Bool} {c : Char}
    (hc : p c = true) :
    ∀ (n : Nat) (l : Text),
      (List.replicate n c ++ l).dropWhile p = l.dropWhile p := by
  intro n
  induction n with
  | zero => intro l; rfl
  | succ m ih =>
    intro l
    rw [List.replicate_succ, List.cons_append,
      List.dropWhile_cons_of_pos hc, ih]

/-- `strip` of an all-whitespace text is empty. -/
theorem strip_of_all_ws {l : Text} (h : ∀ c ∈ l, isSpaceC c = true) :
    strip l = [] := by
  unfold strip
  rw [List.dropWhile_eq_nil_iff.mpr h]
  rfl

/-- A separator-join of all-whitespace parts with a whitespace separator is
all whitespace. -/
theorem joinSep_all_ws {sep : Text} (hsep : ∀ c ∈ sep, isSpaceC c = true) :
    ∀ parts : List Text, (∀ t ∈ parts, ∀ c ∈ t, isSpaceC c = true) →
      ∀ c ∈ joinSep sep parts, isSpaceC c = true := by
  intro parts
  induction parts with
  | nil =>
    intro _ c hc
    cases hc
  | cons t ts ih =>
    intro hall c hc
    rcases ts with _ | ⟨t2, ts'⟩
    · exact hall t (by simp) c hc
    · simp only [joinSep] at hc
      rcases List.mem_append.mp hc with h' | h'
      · rcases List.mem_append.mp h' with h'' | h''
        · exact hall t (by simp) c h''
        · exact hsep c h''
      · exact ih (fun u hu => hall u (by simp [hu])) c h'

/-- C5 counterexample: a single segment of 12001 spaces is entirely
whitespace, yet the outline actually fed to the generator is the truncated
whitespace plus the truncation notice — its strip is the 36-character
notice text, so the placeholder substitution does not fire and the result
is not the placeholder sentence. -/
theorem c5_counterexample :
    (∀ c ∈ (List.replicate 12001 ' ' : Text), isSpaceC c = true) ∧
      normalizeOutline
          (create_document_outline [⟨List.replicate 12001 ' ', 0⟩]) ≠
        placeholderText := by
  constructor
  · intro c hc
    rw [List.eq_of_mem_replicate hc]
    rfl
  · have h1 : create_document_outline [⟨List.replicate 12001 ' ', 0⟩] =
        List.replicate 12000 ' ' ++ truncNotice := by
      unfold create_document_outline
      simp only [List.map_cons, List.map_nil, joinSep, List.length_replicate]
      rw [if_pos (by norm_num), List.take_replicate]
      norm_num
    have h2 : strip (List.replicate 12000 ' ' ++ truncNotice) =
        "[Content truncated due to length...]".data := by
      unfold strip
      rw [dropWhile_replicate_append (by decide)]
      decide
    have h4 : truncNotice.length = 38 := by decide
    have h5 : placeholderText.length = 114 := by decide
    have h3 : normalizeOutline (List.replicate 12000 ' ' ++ truncNotice) =
        List.replicate 12000 ' ' ++ truncNotice := by
      unfold normalizeOutline
      rw [if_neg]
      rintro (hemp | hshort)
      · have hl := congrArg List.length hemp
        rw [List.length_append, List.length_replicate, h4] at hl
        exact absurd hl (by norm_num)
      · rw [h2] at hshort
        revert hshort
        decide
    rw [h1, h3]
    intro heq
    have hlen := congrArg List.length heq
    rw [List.length_append, List.length_replicate, h4, h5] at hlen
    omega


/-- C5 amended: with an empty segment list, or all-whitespace segment texts
whose joined length stays within the 12000-character ceiling, the outline
fed to the generator is the fixed placeholder sentence, which is non-empty
and not whitespace. -/
theorem c5_amended_placeholder (docs : List Segment)
    (hws : docs.all (fun s => s.text.all isSpaceC) = true)
    (hlen : (joinSep "\n\n".data (docs.map (·.text))).length ≤ 12000) :
    normalizeOutline (create_document_outline docs) = placeholderText ∧
      placeholderText ≠ [] ∧ placeholderText.all isSpaceC = false := by
  refine ⟨?_, by decide, by decide⟩
  have hallws : ∀ c ∈ joinSep "\n\n".data (docs.map (·.text)),
      isSpaceC c = true := by
    apply joinSep_all_ws (by decide)
    intro t ht c hc
    rcases List.mem_map.mp ht with ⟨seg, hseg, rfl⟩
    rw [List.all_eq_true] at hws
    have h' := hws seg hseg
    rw [List.all_eq_true] at h'
    exact h' c hc
  have ho : create_document_outline docs =
      joinSep "\n\n".data (docs.map (·.text)) := by
    unfold create_document_outline
    rw [if_neg (by omega)]
  rw [ho]
  unfold normalizeOutline
  rw [if_pos (Or.inr (by rw [strip_of_all_ws hallws]; norm_num))]

/-- C5 amended witness: one two-space segment. -/
theorem c5_amended_placeholder_witness :
    ([⟨"  ".data, 0⟩] : List Segment).all
        (fun s => s.text.all isSpaceC) = true ∧
      (joinSep "\n\n".data
        (([⟨"  ".data, 0⟩] : List Segment).map (·.text))).length ≤ 12000 ∧
      normalizeOutline (create_document_outline [⟨"  ".data, 0⟩]) =
        placeholderText :=
  ⟨by decide, by decide,
    (c5_amended_placeholder _ (by decide) (by decide)).1⟩


/-!
## Engine step lemmas for the grammar round-trip
-/

theorem findSome?_cons_some {α β : Type} {f : α → Option β} {a : α}
    {l : List α} {b : β} (h : f a = some b) :
    (a :: l).findSome? f = some b := by
  simp [List.findSome?_cons, h]

theorem findSome?_cons_none {α β : Type} {f : α → Option β} {a : α}
    {l : List α} (h : f a = none) :
    (a :: l).findSome? f = l.findSome? f := by
  simp [List.findSome?_cons, h]

theorem findSome?_none {α β : Type} {f : α → Option β} :
    ∀ {l : List α}, (∀ a ∈ l, f a = none) → l.findSome? f = none := by
  intro l
  induction l with
  | nil => intro _; rfl
  | cons a l ih =>
    intro h
    rw [findSome?_cons_none (h a (by simp))]
    exact ih (fun b hb => h b (by simp [hb]))

theorem runLen_cons_pos {p : Char → Bool} {c : Char} {s : Text}
    (h : p c = true) : runLen p (c :: s) = runLen p s + 1 := by
  simp [runLen, h]

theorem runLen_cons_neg {p : Char → Bool} {c : Char} {s : Text}
    (h : p c = false) : runLen p (c :: s) = 0 := by
  simp [runLen, h]

theorem runLen_append_all {p : Char → Bool} :
    ∀ {xs : Text} (s : Text), (∀ c ∈ xs, p c = true) →
      runLen p (xs ++ s) = xs.length + runLen p s := by
  intro xs
  induction xs with
  | nil => intro s _; simp
  | cons c t ih =>
    intro s h
    rw [List.cons_append, runLen_cons_pos (h c (by simp)),
      ih s (fun d hd => h d (by simp [hd]))]
    simp only [List.length_cons]
    omega

theorem countdown_mem_le : ∀ {n k : Nat}, k ∈ countdown n → 1 ≤ k ∧ k ≤ n := by
  intro n
  induction n with
  | zero => intro k h; cases h
  | succ m ih =>
    intro k h
    rcases List.mem_cons.mp h with rfl | h'
    · omega
    · have := ih h'
      omega

theorem matchToks_lit_eq {ch : Char} {ts : List Tok} {caps : Caps} {s : Text} :
    matchToks (.lit ch :: ts) caps (ch :: s) = matchToks ts caps s := by
  simp [matchToks]

theorem matchToks_lit_ne {ch c : Char} {ts : List Tok} {caps : Caps}
    {s : Text} (h : c ≠ ch) :
    matchToks (.lit ch :: ts) caps (c :: s) = none := by
  simp [matchToks, h]

theorem matchToks_lit_nil {ch : Char} {ts : List Tok} {caps : Caps} :
    matchToks (.lit ch :: ts) caps [] = none := rfl

theorem matchToks_litToks {ts : List Tok} {caps : Caps} :
    ∀ (t : Text) (s : Text),
      matchToks (litToks t ++ ts) caps (t ++ s) = matchToks ts caps s := by
  intro t
  induction t with
  | nil => intro s; rfl
  | cons c t ih =>
    intro s
    show matchToks (.lit c :: (litToks t ++ ts)) caps (c :: (t ++ s)) = _
    rw [matchToks_lit_eq, ih]

theorem matchToks_plus_stop0 {g : Option Nat} {p : Char → Bool}
    {ts : List Tok} {caps : Caps} {s : Text} (h : runLen p s = 0) :
    matchToks (.plus g p :: ts) caps s = none := by
  simp [matchToks, h, countdown]

theorem matchToks_plus_top {g : Option Nat} {p : Char → Bool} {ts : List Tok}
    {caps : Caps} {xs s' : Text} {r : Caps × Text}
    (hall : ∀ c ∈ xs, p c = true) (hne : xs ≠ [])
    (hstop : runLen p s' = 0)
    (hcont : matchToks ts (setCap caps g xs) s' = some r) :
    matchToks (.plus g p :: ts) caps (xs ++ s') = some r := by
  have hrun : runLen p (xs ++ s') = xs.length := by
    rw [runLen_append_all s' hall, hstop]
    omega
  obtain ⟨m, hm⟩ : ∃ m, xs.length = m + 1 := by
    rcases xs with _ | ⟨c, t⟩
    · exact absurd rfl hne
    · exact ⟨t.length, by simp⟩
  show (countdown (runLen p (xs ++ s'))).findSome? _ = some r
  rw [hrun, hm, countdown]
  refine findSome?_cons_some ?_
  rw [← hm, List.take_left, List.drop_left]
  exact hcont

theorem matchToks_plus_back1 {g : Option Nat} {p : Char → Bool}
    {ts : List Tok} {caps : Caps} {ys s' : Text} {w : Char} {r : Caps × Text}
    (hall : ∀ c ∈ ys, p c = true) (hw : p w = true) (hne : ys ≠ [])
    (hstop : runLen p s' = 0)
    (hfail : matchToks ts (setCap caps g (ys ++ [w])) s' = none)
    (hcont : matchToks ts (setCap caps g ys) (w :: s') = some r) :
    matchToks (.plus g p :: ts) caps (ys ++ w :: s') = some r := by
  have hally : ∀ c ∈ ys ++ [w], p c = true := by
    intro c hc
    rcases List.mem_append.mp hc with h' | h'
    · exact hall c h'
    · simp at h'
      exact h' ▸ hw
  have hrun : runLen p (ys ++ w :: s') = ys.length + 1 := by
    have : ys ++ w :: s' = (ys ++ [w]) ++ s' := by simp
    rw [this, runLen_append_all s' hally, hstop]
    simp
  obtain ⟨m, hm⟩ : ∃ m, ys.length = m + 1 := by
    rcases ys with _ | ⟨c, t⟩
    · exact absurd rfl hne
    · exact ⟨t.length, by simp⟩
  have hsplit : ys ++ w :: s' = (ys ++ [w]) ++ s' := by simp
  show (countdown (runLen p (ys ++ w :: s'))).findSome? _ = some r
  rw [hrun, hm]
  show ((m + 2) :: countdown (m + 1)).findSome? _ = some r
  rw [findSome?_cons_none ?hfail2]
  case hfail2 =>
    have hlen : (ys ++ [w]).length = m + 2 := by simp [hm]
    rw [hsplit, ← hlen, List.take_left, List.drop_left]
    exact hfail
  rw [countdown]
  refine findSome?_cons_some ?_
  have htake : (ys ++ w :: s').take (m + 1) = ys := by
    rw [← hm, List.take_append_of_le_length (by simp), List.take_length]
  have hdrop : (ys ++ w :: s').drop (m + 1) = w :: s' := by
    rw [← hm, List.drop_append_of_le_length (by simp), List.drop_length]
    simp
  rw [htake, hdrop]
  exact hcont

theorem matchToks_star_top {p : Char → Bool} {ts : List Tok} {caps : Caps}
    {xs s' : Text} {r : Caps × Text}
    (hall : ∀ c ∈ xs, p c = true) (hstop : runLen p s' = 0)
    (hcont : matchToks ts caps s' = some r) :
    matchToks (.star p :: ts) caps (xs ++ s') = some r := by
  have hrun : runLen p (xs ++ s') = xs.length := by
    rw [runLen_append_all s' hall, hstop]
    omega
  show ((countdown (runLen p (xs ++ s')) ++ [0]).findSome? _) = some r
  rw [hrun]
  rcases xs with _ | ⟨c, t⟩
  · show (countdown 0 ++ [0]).findSome? _ = some r
    rw [countdown]
    exact findSome?_cons_some hcont
  · show (countdown ((c :: t).length) ++ [0]).findSome? _ = some r
    have hl1 : (c :: t).length = t.length + 1 := by simp
    rw [hl1, countdown]
    refine findSome?_cons_some ?_
    rw [← hl1, List.drop_left]
    exact hcont

theorem matchToks_star_none {p : Char → Bool} {ts : List Tok} {caps : Caps}
    {s : Text}
    (h : ∀ k, k ≤ runLen p s → matchToks ts caps (s.drop k) = none) :
    matchToks (.star p :: ts) caps s = none := by
  show ((countdown (runLen p s) ++ [0]).findSome? _) = none
  refine findSome?_none ?_
  intro k hk
  rcases List.mem_append.mp hk with h' | h'
  · exact h k (countdown_mem_le h').2
  · simp at h'
    exact h' ▸ h 0 (Nat.zero_le _)


theorem setCap_none_eq {caps : Caps} {v : Text} : setCap caps none v = caps := rfl

theorem setCap_some_apply {caps : Caps} {i j : Nat} {v : Text} :
    setCap caps (some i) v j = if j = i then v else caps j := rfl

theorem isPrefixOf_append_self : ∀ (l s : Text), l.isPrefixOf (l ++ s) = true := by
  intro l
  induction l with
  | nil => intro s; simp [List.isPrefixOf]
  | cons c t ih =>
    intro s
    simp [List.isPrefixOf, ih s]

theorem isPrefixOf_false_head {a b : Char} {as bs s : Text} (h : ¬a = b) :
    (a :: as).isPrefixOf ((b :: bs) ++ s) = false := by
  simp [List.isPrefixOf, h]

theorem isPrefixOf_false_head2 {a b a2 b2 : Char} {as bs s : Text}
    (h : ¬a2 = b2) :
    (a :: a2 :: as).isPrefixOf ((b :: b2 :: bs) ++ s) = false := by
  simp [List.isPrefixOf, h]

theorem tagCore_chars : tagCore = ['C', 'o', 'r', 'e'] := rfl

theorem tagPractice_chars :
    tagPractice = ['P', 'r', 'a', 'c', 't', 'i', 'c', 'e'] := rfl

theorem tagOverview_chars :
    tagOverview = ['O', 'v', 'e', 'r', 'v', 'i', 'e', 'w'] := rfl

theorem tagOptional_chars :
    tagOptional = ['O', 'p', 't', 'i', 'o', 'n', 'a', 'l'] := rfl

/-- The tag alternation succeeds on a rendered tag, capturing it in group 4:
the four alternatives are pairwise distinguished by their first two
characters, so the matching alternative is the rendered tag itself. -/
theorem matchToks_alts_tag {ts : List Tok} {caps : Caps} {tag : Text}
    {s : Text} {r : Caps × Text}
    (htag : tag ∈ tagList)
    (hcont : matchToks ts (setCap caps (some 4) tag) s = some r) :
    matchToks (.alts 4 tagList :: ts) caps (tag ++ s) = some r := by
  have hdrop : ∀ (l s₂ : Text), (l ++ s₂).drop l.length = s₂ :=
    fun l s₂ => List.drop_left l s₂
  simp only [tagList, List.mem_cons, List.mem_singleton] at htag
  show tagList.findSome? _ = some r
  show ([tagCore, tagPractice, tagOverview, tagOptional]).findSome? _ = some r
  rcases htag with rfl | rfl | rfl | rfl | h
  · refine findSome?_cons_some ?_
    rw [if_pos (by rw [isPrefixOf_append_self]), hdrop]
    exact hcont
  · rw [findSome?_cons_none ?c1]
    case c1 =>
      rw [if_neg ?pf]
      case pf =>
        rw [tagCore_chars, tagPractice_chars,
          isPrefixOf_false_head (by decide)]
        simp
    refine findSome?_cons_some ?_
    rw [if_pos (by rw [isPrefixOf_append_self]), hdrop]
    exact hcont
  · rw [findSome?_cons_none ?c1]
    case c1 =>
      rw [if_neg ?pf]
      case pf =>
        rw [tagCore_chars, tagOverview_chars,
          isPrefixOf_false_head (by decide)]
        simp
    rw [findSome?_cons_none ?c2]
    case c2 =>
      rw [if_neg ?pf]
      case pf =>
        rw [tagPractice_chars, tagOverview_chars,
          isPrefixOf_false_head (by decide)]
        simp
    refine findSome?_cons_some ?_
    rw [if_pos (by rw [isPrefixOf_append_self]), hdrop]
    exact hcont
  · rw [findSome?_cons_none ?c1]
    case c1 =>
      rw [if_neg ?pf]
      case pf =>
        rw [tagCore_chars, tagOptional_chars,
          isPrefixOf_false_head (by decide)]
        simp
    rw [findSome?_cons_none ?c2]
    case c2 =>
      rw [if_neg ?pf]
      case pf =>
        rw [tagPractice_chars, tagOptional_chars,
          isPrefixOf_false_head (by decide)]
        simp
    rw [findSome?_cons_none ?c3]
    case c3 =>
      rw [if_neg ?pf]
      case pf =>
        rw [tagOverview_chars, tagOptional_chars,
          isPrefixOf_false_head2 (by decide)]
        simp
    refine findSome?_cons_some ?_
    rw [if_pos (by rw [isPrefixOf_append_self]), hdrop]
    exact hcont
  · cases h

theorem all_notDash_of_not_mem {l : Text} (h : '—' ∉ l) :
    ∀ c ∈ l, notDashC c = true := by
  intro c hc
  simp only [notDashC, Bool.not_eq_true', decide_eq_false_iff_not]
  exact fun he => h (he ▸ hc)

theorem all_notLBrack_of_not_mem {l : Text} (h : '[' ∉ l) :
    ∀ c ∈ l, notLBrackC c = true := by
  intro c hc
  simp only [notLBrackC, Bool.not_eq_true', decide_eq_false_iff_not]
  exact fun he => h (he ▸ hc)

theorem all_notNl_of_not_mem {l : Text} (h : '\n' ∉ l) :
    ∀ c ∈ l, notNlC c = true := by
  intro c hc
  simp only [notNlC, Bool.not_eq_true', decide_eq_false_iff_not]
  exact fun he => h (he ▸ hc)

/-- `strip` of a strip-fixed non-empty text with one trailing space. -/
theorem strip_append_space {l : Text} (hfix : strip l = l) (hne : l ≠ []) :
    strip (l ++ [' ']) = l := by
  obtain ⟨c, t, hct⟩ : ∃ c t, l = c :: t := by
    rcases l with _ | ⟨c, t⟩
    · exact absurd rfl hne
    · exact ⟨c, t, rfl⟩
  obtain ⟨L, b, hLb⟩ : ∃ L b, l = L ++ [b] := by
    rcases l.eq_nil_or_concat' with h' | ⟨L, b, h'⟩
    · exact absurd h' hne
    · exact ⟨L, b, h'⟩
  have hc : isSpaceC c = false := strip_head_false (by rw [hfix, hct])
  have hb : isSpaceC b = false := strip_last_false (by rw [hfix, hLb])
  show (((l ++ [' ']).dropWhile isSpaceC).reverse.dropWhile isSpaceC).reverse = l
  have hd1 : (l ++ [' ']).dropWhile isSpaceC = l ++ [' '] := by
    rw [hct, List.cons_append]
    exact List.dropWhile_cons_of_neg (by simp [hc])
  rw [hd1, List.reverse_append]
  simp only [List.reverse_cons, List.reverse_nil, List.nil_append,
    List.singleton_append]
  rw [List.dropWhile_cons_of_pos (by decide)]
  have hd2 : l.reverse.dropWhile isSpaceC = l.reverse := by
    rw [hLb, List.reverse_append]
    simp only [List.reverse_cons, List.reverse_nil, List.nil_append,
      List.singleton_append]
    exact List.dropWhile_cons_of_neg (by simp [hb])
  rw [hd2, List.reverse_reverse]

/-- Decimal rendering facts for the bounded numbers the round-trip needs. -/
theorem natToChars_bounded_facts (n : Nat) (h : n ≤ 15) :
    natToChars n ≠ [] ∧ (natToChars n).all isDigitC = true ∧
      charsToNat (natToChars n) = n ∧
      isSpaceC ((natToChars n).headD 'x') = false ∧
      ¬((natToChars n).headD 'x') = '↳' ∧
      ¬((natToChars n).headD 'x') = '\n' := by
  interval_cases n <;> exact (by decide)


/-- The mandatory item pattern matches a rendered item line exactly,
consuming it entirely and capturing the five groups; the greedy `\s+`
before the objective backtracks by one character to leave the blank before
`[` to the following `\s+`, and the label group greedily takes the blank
before the em dash (stripped away afterwards by the parser). -/
theorem matchToks_itemPat_render
    {n : Nat} {lab obj tg : Text} {e : Nat} {tail : Text}
    (hn : n ≤ 15)
    (hlab_ne : lab ≠ []) (hlab_fix : strip lab = lab) (hlab_nd : '—' ∉ lab)
    (hobj_ne : obj ≠ []) (hobj_fix : strip obj = obj) (hobj_nb : '[' ∉ obj)
    (htg : tg ∈ tagList) (he : 1 ≤ e)
    (htail : runLen isStarC tail = 0) :
    matchToks itemPat caps0
      (natToChars n ++ '.' :: ' ' :: (lab ++ ' ' :: '—' :: ' ' ::
        (obj ++ ' ' :: '[' :: (tg ++ ']' :: ' ' ::
          (List.replicate e '★' ++ tail))))) =
      some (setCap (setCap (setCap (setCap (setCap caps0
        (some 1) (natToChars n)) (some 2) (lab ++ [' '])) (some 3) obj)
        (some 4) tg) (some 5) (List.replicate e '★'), tail) := by
  obtain ⟨hD_ne, hD_dig, hD_val, hD_hd_ws, hD_hd_arr, hD_hd_nl⟩ :=
    natToChars_bounded_facts n hn
  obtain ⟨lc, lt, hlabc⟩ : ∃ c t, lab = c :: t := by
    rcases lab with _ | ⟨c, t⟩
    · exact absurd rfl hlab_ne
    · exact ⟨c, t, rfl⟩
  obtain ⟨oc, ot, hobjc⟩ : ∃ c t, obj = c :: t := by
    rcases obj with _ | ⟨c, t⟩
    · exact absurd rfl hobj_ne
    · exact ⟨c, t, rfl⟩
  obtain ⟨e', rfl⟩ : ∃ e', e = e' + 1 := ⟨e - 1, by omega⟩
  have hlc_ws : isSpaceC lc = false := strip_head_false (by rw [hlab_fix, hlabc])
  have hoc_ws : isSpaceC oc = false := strip_head_false (by rw [hobj_fix, hobjc])
  set caps1 := setCap caps0 (some 1) (natToChars n) with hc1
  set caps2 := setCap caps1 (some 2) (lab ++ [' ']) with hc2
  set caps3 := setCap caps2 (some 3) obj with hc3
  set caps4 := setCap caps3 (some 4) tg with hc4
  set caps5 := setCap caps4 (some 5) (List.replicate (e' + 1) '★') with hc5
  have hstars_all : ∀ c ∈ List.replicate (e' + 1) '★', isStarC c = true := by
    intro c hc
    rw [List.eq_of_mem_replicate hc]
    decide
  have hstars_ne : (List.replicate (e' + 1) '★' : Text) ≠ [] := by
    intro hnil
    have := congrArg List.length hnil
    simp [List.length_replicate] at this
  have h13 : matchToks [.plus (some 5) isStarC] caps4
      (List.replicate (e' + 1) '★' ++ tail) = some (caps5, tail) :=
    matchToks_plus_top hstars_all hstars_ne htail rfl
  have h12 : matchToks [.plus none isSpaceC, .plus (some 5) isStarC] caps4
      ([' '] ++ (List.replicate (e' + 1) '★' ++ tail)) = some (caps5, tail) := by
    refine matchToks_plus_top (by decide) (by simp) ?_ h13
    rw [List.replicate_succ, List.cons_append]
    exact runLen_cons_neg (by decide)
  have h11 : matchToks
      [.lit ']', .plus none isSpaceC, .plus (some 5) isStarC] caps4
      (']' :: ([' '] ++ (List.replicate (e' + 1) '★' ++ tail))) =
      some (caps5, tail) := by
    rw [matchToks_lit_eq]
    exact h12
  have h10 : matchToks
      [.alts 4 tagList, .lit ']', .plus none isSpaceC,
        .plus (some 5) isStarC] caps3
      (tg ++ (']' :: ([' '] ++ (List.replicate (e' + 1) '★' ++ tail)))) =
      some (caps5, tail) :=
    matchToks_alts_tag htg h11
  have h9 : matchToks
      [.lit '[', .alts 4 tagList, .lit ']', .plus none isSpaceC,
        .plus (some 5) isStarC] caps3
      ('[' :: (tg ++ (']' :: ([' '] ++
        (List.replicate (e' + 1) '★' ++ tail))))) = some (caps5, tail) := by
    rw [matchToks_lit_eq]
    exact h10
  have h8 : matchToks
      [.plus none isSpaceC, .lit '[', .alts 4 tagList, .lit ']',
        .plus none isSpaceC, .plus (some 5) isStarC] caps3
      (' ' :: ('[' :: (tg ++ (']' :: ([' '] ++
        (List.replicate (e' + 1) '★' ++ tail)))))) = some (caps5, tail) := by
    have := @matchToks_plus_top none isSpaceC _ caps3 [' '] _ _
      (by decide) (by simp) (runLen_cons_neg (by decide)) h9
    simpa using this
  have h7 : matchToks
      [.plus (some 3) notLBrackC, .plus none isSpaceC, .lit '[',
        .alts 4 tagList, .lit ']', .plus none isSpaceC,
        .plus (some 5) isStarC] caps2
      (obj ++ ' ' :: ('[' :: (tg ++ (']' :: ([' '] ++
        (List.replicate (e' + 1) '★' ++ tail)))))) = some (caps5, tail) := by
    refine matchToks_plus_back1 (all_notLBrack_of_not_mem hobj_nb)
      (by decide) hobj_ne (runLen_cons_neg (by decide)) ?_ h8
    exact matchToks_plus_stop0 (runLen_cons_neg (by decide))
  have h6 : matchToks
      [.plus none isSpaceC, .plus (some 3) notLBrackC,
        .plus none isSpaceC, .lit '[', .alts 4 tagList, .lit ']',
        .plus none isSpaceC, .plus (some 5) isStarC] caps2
      (' ' :: (obj ++ ' ' :: ('[' :: (tg ++ (']' :: ([' '] ++
        (List.replicate (e' + 1) '★' ++ tail))))))) = some (caps5, tail) := by
    have hstop : runLen isSpaceC (obj ++ ' ' :: ('[' :: (tg ++ (']' ::
        ([' '] ++ (List.replicate (e' + 1) '★' ++ tail)))))) = 0 := by
      rw [hobjc, List.cons_append]
      exact runLen_cons_neg hoc_ws
    have := @matchToks_plus_top none isSpaceC _ caps2 [' '] _ _
      (by decide) (by simp) hstop h7
    simpa using this
  have h5 : matchToks
      [.lit '—', .plus none isSpaceC, .plus (some 3) notLBrackC,
        .plus none isSpaceC, .lit '[', .alts 4 tagList, .lit ']',
        .plus none isSpaceC, .plus (some 5) isStarC] caps2
      ('—' :: (' ' :: (obj ++ ' ' :: ('[' :: (tg ++ (']' :: ([' '] ++
        (List.replicate (e' + 1) '★' ++ tail)))))))) = some (caps5, tail) := by
    rw [matchToks_lit_eq]
    exact h6
  have h4 : matchToks
      [.plus (some 2) notDashC, .lit '—', .plus none isSpaceC,
        .plus (some 3) notLBrackC, .plus none isSpaceC, .lit '[',
        .alts 4 tagList, .lit ']', .plus none isSpaceC,
        .plus (some 5) isStarC] caps1
      ((lab ++ [' ']) ++ ('—' :: (' ' :: (obj ++ ' ' :: ('[' :: (tg ++
        (']' :: ([' '] ++ (List.replicate (e' + 1) '★' ++ tail))))))))) =
      some (caps5, tail) := by
    refine matchToks_plus_top ?_ (by simp) (runLen_cons_neg (by decide)) h5
    intro c hc
    rcases List.mem_append.mp hc with h' | h'
    · exact all_notDash_of_not_mem hlab_nd c h'
    · simp at h'
      rw [h']
      decide
  have h3 : matchToks
      [.plus none isSpaceC, .plus (some 2) notDashC, .lit '—',
        .plus none isSpaceC, .plus (some 3) notLBrackC,
        .plus none isSpaceC, .lit '[', .alts 4 tagList, .lit ']',
        .plus none isSpaceC, .plus (some 5) isStarC] caps1
      (' ' :: ((lab ++ [' ']) ++ ('—' :: (' ' :: (obj ++ ' ' :: ('[' ::
        (tg ++ (']' :: ([' '] ++ (List.replicate (e' + 1) '★' ++
          tail)))))))))) = some (caps5, tail) := by
    have hstop : runLen isSpaceC ((lab ++ [' ']) ++ ('—' :: (' ' ::
        (obj ++ ' ' :: ('[' :: (tg ++ (']' :: ([' '] ++
          (List.replicate (e' + 1) '★' ++ tail))))))))) = 0 := by
      rw [hlabc, List.cons_append, List.cons_append]
      exact runLen_cons_neg hlc_ws
    have := @matchToks_plus_top none isSpaceC _ caps1 [' '] _ _
      (by decide) (by simp) hstop h4
    simpa using this
  have h2 : matchToks
      [.lit '.', .plus none isSpaceC, .plus (some 2) notDashC, .lit '—',
        .plus none isSpaceC, .plus (some 3) notLBrackC,
        .plus none isSpaceC, .lit '[', .alts 4 tagList, .lit ']',
        .plus none isSpaceC, .plus (some 5) isStarC] caps1
      ('.' :: (' ' :: ((lab ++ [' ']) ++ ('—' :: (' ' :: (obj ++ ' ' ::
        ('[' :: (tg ++ (']' :: ([' '] ++ (List.replicate (e' + 1) '★' ++
          tail))))))))))) = some (caps5, tail) := by
    rw [matchToks_lit_eq]
    exact h3
  have hD_all : ∀ c ∈ natToChars n, isDigitC c = true := by
    intro c hc
    exact List.all_eq_true.mp hD_dig c hc
  have h1 : matchToks itemPat caps0
      (natToChars n ++ ('.' :: (' ' :: ((lab ++ [' ']) ++ ('—' :: (' ' ::
        (obj ++ ' ' :: ('[' :: (tg ++ (']' :: ([' '] ++
          (List.replicate (e' + 1) '★' ++ tail)))))))))))) =
      some (caps5, tail) := by
    show matchToks
      [.plus (some 1) isDigitC, .lit '.', .plus none isSpaceC,
        .plus (some 2) notDashC, .lit '—', .plus none isSpaceC,
        .plus (some 3) notLBrackC, .plus none isSpaceC, .lit '[',
        .alts 4 tagList, .lit ']', .plus none isSpaceC,
        .plus (some 5) isStarC] caps0 _ = _
    exact matchToks_plus_top hD_all hD_ne (runLen_cons_neg (by decide)) h2
  have hform : natToChars n ++ '.' :: ' ' :: (lab ++ ' ' :: '—' :: ' ' ::
      (obj ++ ' ' :: '[' :: (tg ++ ']' :: ' ' ::
        (List.replicate (e' + 1) '★' ++ tail)))) =
      natToChars n ++ ('.' :: (' ' :: ((lab ++ [' ']) ++ ('—' :: (' ' ::
        (obj ++ ' ' :: ('[' :: (tg ++ (']' :: ([' '] ++
          (List.replicate (e' + 1) '★' ++ tail))))))))))) := by
    simp
  rw [hform]
  exact h1


/-- The optional prompt pattern fails at the end of an item line when no
prompt was rendered: the following line (if any) starts with a digit, so
the `↳` literal can never be reached. -/
theorem matchToks_promptPat_none {caps : Caps} {rest : Text}
    (hrest : rest = [] ∨ ∃ hu u', rest = '\n' :: hu :: u' ∧
      isSpaceC hu = false ∧ ¬hu = '↳') :
    matchToks promptPat caps rest = none := by
  have hpp : promptPat = .star isSpaceC :: (.lit '↳' :: (.star isSpaceC ::
      (litToks "Prompt:".data ++
        [.star isSpaceC, .plus (some 6) notNlC]))) := rfl
  rcases hrest with rfl | ⟨hu, u', rfl, hws, harr⟩
  · rw [hpp]
    refine matchToks_star_none ?_
    intro k hk
    have hk0 : k = 0 := by simpa [runLen] using hk
    subst hk0
    exact matchToks_lit_nil
  · rw [hpp]
    refine matchToks_star_none ?_
    intro k hk
    have hrun : runLen isSpaceC ('\n' :: hu :: u') = 1 := by
      rw [runLen_cons_pos (by decide), runLen_cons_neg hws]
    rw [hrun] at hk
    interval_cases k
    · exact matchToks_lit_ne (by decide)
    · exact matchToks_lit_ne harr

/-- The optional prompt pattern consumes a rendered prompt continuation
line entirely, capturing the prompt text in group 6. -/
theorem matchToks_promptPat_some {caps : Caps} {p rest : Text}
    (hp_ne : p ≠ []) (hp_fix : strip p = p) (hp_nn : '\n' ∉ p)
    (hrest : runLen notNlC rest = 0) :
    matchToks promptPat caps ("\n   ↳ Prompt: ".data ++ (p ++ rest)) =
      some (setCap caps (some 6) p, rest) := by
  obtain ⟨pc, pt, hpc⟩ : ∃ c t, p = c :: t := by
    rcases p with _ | ⟨c, t⟩
    · exact absurd rfl hp_ne
    · exact ⟨c, t, rfl⟩
  have hpc_ws : isSpaceC pc = false := strip_head_false (by rw [hp_fix, hpc])
  have h6 : matchToks [.plus (some 6) notNlC] caps (p ++ rest) =
      some (setCap caps (some 6) p, rest) :=
    matchToks_plus_top (all_notNl_of_not_mem hp_nn) hp_ne hrest rfl
  have h5 : matchToks [.star isSpaceC, .plus (some 6) notNlC] caps
      ([' '] ++ (p ++ rest)) = some (setCap caps (some 6) p, rest) := by
    refine matchToks_star_top (by decide) ?_ h6
    rw [hpc, List.cons_append]
    exact runLen_cons_neg hpc_ws
  have h4 : matchToks (litToks "Prompt:".data ++
      [.star isSpaceC, .plus (some 6) notNlC]) caps
      ("Prompt:".data ++ ([' '] ++ (p ++ rest))) =
      some (setCap caps (some 6) p, rest) := by
    rw [matchToks_litToks]
    exact h5
  have h3 : matchToks (.star isSpaceC :: (litToks "Prompt:".data ++
      [.star isSpaceC, .plus (some 6) notNlC])) caps
      ([' '] ++ ("Prompt:".data ++ ([' '] ++ (p ++ rest)))) =
      some (setCap caps (some 6) p, rest) := by
    refine matchToks_star_top (by decide) ?_ h4
    have hP : "Prompt:".data ++ ([' '] ++ (p ++ rest)) =
        'P' :: ("rompt:".data ++ ([' '] ++ (p ++ rest))) := rfl
    rw [hP]
    exact runLen_cons_neg (by decide)
  have h2 : matchToks (.lit '↳' :: (.star isSpaceC ::
      (litToks "Prompt:".data ++
        [.star isSpaceC, .plus (some 6) notNlC]))) caps
      ('↳' :: ([' '] ++ ("Prompt:".data ++ ([' '] ++ (p ++ rest))))) =
      some (setCap caps (some 6) p, rest) := by
    rw [matchToks_lit_eq]
    exact h3
  have h1 : matchToks (.star isSpaceC :: (.lit '↳' :: (.star isSpaceC ::
      (litToks "Prompt:".data ++
        [.star isSpaceC, .plus (some 6) notNlC])))) caps
      (['\n', ' ', ' ', ' '] ++ ('↳' :: ([' '] ++
        ("Prompt:".data ++ ([' '] ++ (p ++ rest)))))) =
      some (setCap caps (some 6) p, rest) := by
    refine matchToks_star_top (by decide) ?_ h2
    exact runLen_cons_neg (by decide)
  have hform : "\n   ↳ Prompt: ".data ++ (p ++ rest) =
      ['\n', ' ', ' ', ' '] ++ ('↳' :: ([' '] ++
        ("Prompt:".data ++ ([' '] ++ (p ++ rest))))) := rfl
  rw [hform]
  exact h1


theorem ne_nil_of_not_isEmpty {l : Text} (h : (!l.isEmpty) = true) :
    l ≠ [] := by
  cases l <;> simp_all

theorem renderableB_dest {it : ChecklistItem} (h : renderableB it = true) :
    it.label ≠ [] ∧ strip it.label = it.label ∧ '—' ∉ it.label ∧
      it.objective ≠ [] ∧ strip it.objective = it.objective ∧
      '[' ∉ it.objective ∧ it.tag ∈ tagList ∧ 1 ≤ it.effort ∧
      it.effort ≤ 5 ∧
      ∀ p, it.prompt = some p → p ≠ [] ∧ strip p = p ∧ '\n' ∉ p := by
  obtain ⟨n, lab, obj, tg, e, pr⟩ := it
  rcases pr with _ | p
  · simp only [renderableB, effortOKb, tagOKb, Bool.and_true,
      Bool.and_eq_true, decide_eq_true_eq, List.any_eq_true] at h
    obtain ⟨⟨⟨⟨⟨⟨⟨hl1, hl2⟩, hl3⟩, ho1⟩, ho2⟩, ho3⟩, ⟨x, hx, hxeq⟩⟩, he⟩ := h
    refine ⟨ne_nil_of_not_isEmpty hl1, hl2, hl3,
      ne_nil_of_not_isEmpty ho1, ho2, ho3, hxeq ▸ hx, he.1, he.2, ?_⟩
    intro p hp
    cases hp
  · simp only [renderableB, effortOKb, tagOKb, Bool.and_eq_true,
      decide_eq_true_eq, List.any_eq_true] at h
    obtain ⟨⟨⟨⟨⟨⟨⟨⟨hl1, hl2⟩, hl3⟩, ho1⟩, ho2⟩, ho3⟩, ⟨x, hx, hxeq⟩⟩, he⟩,
      hp⟩ := h
    refine ⟨ne_nil_of_not_isEmpty hl1, hl2, hl3,
      ne_nil_of_not_isEmpty ho1, ho2, ho3, hxeq ▸ hx, he.1, he.2, ?_⟩
    intro q hq
    cases hq
    exact ⟨ne_nil_of_not_isEmpty hp.1.1, hp.1.2, hp.2⟩

theorem data_dotSpace : ". ".data = ['.', ' '] := rfl

theorem data_spDashSp : " — ".data = [' ', '—', ' '] := rfl

theorem data_spLBrack : " [".data = [' ', '['] := rfl

theorem data_rBrackSp : "] ".data = [']', ' '] := rfl

/-- On a rendered item followed by nothing or by a newline and a further
digit-led line, `tryMatch` succeeds, reproduces the item exactly, and
leaves precisely the trailing text. -/
theorem tryMatch_renderItem (it : ChecklistItem) (rest : Text)
    (hnum : it.number ≤ 15) (hren : renderableB it = true)
    (hrest : rest = [] ∨ ∃ hu u', rest = '\n' :: hu :: u' ∧
      isSpaceC hu = false ∧ ¬hu = '↳') :
    tryMatch (renderItemSpec it ++ rest) = some (it, rest) := by
  obtain ⟨hlne, hlfix, hlnd, hone, hofix, honb, htag, he1, he5, hpr⟩ :=
    renderableB_dest hren
  obtain ⟨n, lab, obj, tg, e, pr⟩ := it
  simp only at hlne hlfix hlnd hone hofix honb htag he1 he5 hpr hnum
  rcases pr with _ | p
  · have hstars : runLen isStarC rest = 0 := by
      rcases hrest with rfl | ⟨hu, u', rfl, h1, h2⟩
      · rfl
      · exact runLen_cons_neg (by decide)
    have hitem := matchToks_itemPat_render hnum hlne hlfix
      hlnd hone hofix honb htag he1 hstars
    have hpnone : matchToks promptPat
        (setCap (setCap (setCap (setCap (setCap caps0
          (some 1) (natToChars n)) (some 2) (lab ++ [' '])) (some 3) obj)
          (some 4) tg) (some 5) (List.replicate e '★')) rest = none :=
      matchToks_promptPat_none hrest
    have hform : renderItemSpec ⟨n, lab, obj, tg, e, none⟩ ++ rest =
        natToChars n ++ '.' :: ' ' :: (lab ++ ' ' :: '—' :: ' ' ::
          (obj ++ ' ' :: '[' :: (tg ++ ']' :: ' ' ::
            (List.replicate e '★' ++ rest)))) := by
      simp [renderItemSpec, data_dotSpace, data_spDashSp, data_spLBrack,
        data_rBrackSp]
    unfold tryMatch
    rw [hform, hitem]
    dsimp only
    rw [hpnone]
    dsimp only
    refine congrArg some (Prod.ext ?_ rfl)
    have hval := (natToChars_bounded_facts n hnum).2.2.1
    simp [setCap_some_apply, strip_append_space hlfix hlne, hofix, hval]
  · obtain ⟨hpne, hpfix, hpnn⟩ := hpr p rfl
    have hnlrest : runLen notNlC rest = 0 := by
      rcases hrest with rfl | ⟨hu, u', rfl, h1, h2⟩
      · rfl
      · exact runLen_cons_neg (by decide)
    have hstars : runLen isStarC ("\n   ↳ Prompt: ".data ++ (p ++ rest)) = 0 := by
      have hP : "\n   ↳ Prompt: ".data ++ (p ++ rest) =
          '\n' :: ("   ↳ Prompt: ".data ++ (p ++ rest)) := rfl
      rw [hP]
      exact runLen_cons_neg (by decide)
    have hitem := matchToks_itemPat_render hnum hlne hlfix
      hlnd hone hofix honb htag he1 hstars
    have hpsome := @matchToks_promptPat_some
      (setCap (setCap (setCap (setCap (setCap caps0
        (some 1) (natToChars n)) (some 2) (lab ++ [' '])) (some 3) obj)
        (some 4) tg) (some 5) (List.replicate e '★')) _ _
      hpne hpfix hpnn hnlrest
    have hform : renderItemSpec ⟨n, lab, obj, tg, e, some p⟩ ++ rest =
        natToChars n ++ '.' :: ' ' :: (lab ++ ' ' :: '—' :: ' ' ::
          (obj ++ ' ' :: '[' :: (tg ++ ']' :: ' ' ::
            (List.replicate e '★' ++
              ("\n   ↳ Prompt: ".data ++ (p ++ rest)))))) := by
      simp [renderItemSpec, data_dotSpace, data_spDashSp, data_spLBrack,
        data_rBrackSp]
    unfold tryMatch
    rw [hform, hitem]
    dsimp only
    rw [hpsome]
    dsimp only
    refine congrArg some (Prod.ext ?_ rfl)
    have hval := (natToChars_bounded_facts n hnum).2.2.1
    simp [setCap_some_apply, strip_append_space hlfix hlne, hofix, hval,
      hpfix]


theorem findSome?_eq_some_ex {α β : Type} {f : α → Option β} :
    ∀ {l : List α} {b : β}, l.findSome? f = some b → ∃ a ∈ l, f a = some b := by
  intro l
  induction l with
  | nil => intro b h; cases h
  | cons a l ih =>
    intro b h
    rcases hfa : f a with _ | c
    · rw [findSome?_cons_none hfa] at h
      obtain ⟨x, hx, hfx⟩ := ih h
      exact ⟨x, by simp [hx], hfx⟩
    · rw [findSome?_cons_some hfa] at h
      cases h
      exact ⟨a, by simp, hfa⟩

theorem runLen_le_length {p : Char → Bool} : ∀ s : Text, runLen p s ≤ s.length := by
  intro s
  induction s with
  | nil => simp [runLen]
  | cons c t ih =>
    rcases hb : p c
    · rw [runLen_cons_neg hb]
      simp
    · rw [runLen_cons_pos hb]
      simp only [List.length_cons]
      omega

theorem matchToks_rest_le :
    ∀ (ts : List Tok) (caps : Caps) (s : Text) (cr : Caps × Text),
      matchToks ts caps s = some cr → cr.2.length ≤ s.length := by
  intro ts
  induction ts with
  | nil =>
    intro caps s cr h
    simp only [matchToks] at h
    cases h
    exact Nat.le_refl _
  | cons t ts ih =>
    intro caps s cr h
    cases t with
    | lit ch =>
      rcases s with _ | ⟨c, s'⟩
      · rw [matchToks_lit_nil] at h
        cases h
      · by_cases hc : c = ch
        · subst hc
          rw [matchToks_lit_eq] at h
          have := ih caps s' cr h
          simp only [List.length_cons]
          omega
        · rw [matchToks_lit_ne hc] at h
          cases h
    | plus g p =>
      simp only [matchToks] at h
      obtain ⟨k, hk, hfk⟩ := findSome?_eq_some_ex h
      have h1 := ih _ _ _ hfk
      have h2 : (s.drop k).length = s.length - k := List.length_drop _ _
      omega
    | star p =>
      simp only [matchToks] at h
      obtain ⟨k, hk, hfk⟩ := findSome?_eq_some_ex h
      have h1 := ih _ _ _ hfk
      have h2 : (s.drop k).length = s.length - k := List.length_drop _ _
      omega
    | alts g cands =>
      simp only [matchToks] at h
      obtain ⟨cand, hc, hfc⟩ := findSome?_eq_some_ex h
      by_cases hpre : cand.isPrefixOf s = true
      · rw [if_pos hpre] at hfc
        have h1 := ih _ _ _ hfc
        have h2 : (s.drop cand.length).length = s.length - cand.length :=
          List.length_drop _ _
        omega
      · rw [if_neg hpre] at hfc
        cases hfc

theorem tryMatch_rest_lt {s : Text} {it : ChecklistItem} {r : Text}
    (h : tryMatch s = some (it, r)) : r.length < s.length := by
  unfold tryMatch at h
  split at h
  · cases h
  · next caps rest heq =>
    have hlt : rest.length < s.length := by
      have hinv : (countdown (runLen isDigitC s)).findSome?
          (fun k => matchToks
            [.lit '.', .plus none isSpaceC, .plus (some 2) notDashC,
              .lit '—', .plus none isSpaceC, .plus (some 3) notLBrackC,
              .plus none isSpaceC, .lit '[', .alts 4 tagList, .lit ']',
              .plus none isSpaceC, .plus (some 5) isStarC]
            (setCap caps0 (some 1) (s.take k)) (s.drop k)) =
          some (caps, rest) := heq
      obtain ⟨k, hk, hfk⟩ := findSome?_eq_some_ex hinv
      obtain ⟨hk1, hk2⟩ := countdown_mem_le hk
      have h1 : rest.length ≤ (s.drop k).length :=
        matchToks_rest_le _ _ _ _ hfk
      have h2 : (s.drop k).length = s.length - k := List.length_drop _ _
      have h3 := runLen_le_length (p := isDigitC) s
      omega
    split at h
    · next caps' rest' heq2 =>
      cases h
      have h4 : r.length ≤ rest.length :=
        matchToks_rest_le _ _ _ _ heq2
      omega
    · cases h
      exact hlt

theorem scanAux_nil : ∀ fuel, scanAux fuel [] = [] := by
  intro fuel
  cases fuel <;> rfl

theorem scanAux_cons_some {fuel : Nat} {c : Char} {s' : Text}
    {it : ChecklistItem} {r : Text} (h : tryMatch (c :: s') = some (it, r)) :
    scanAux (fuel + 1) (c :: s') = it :: scanAux fuel r := by
  simp only [scanAux, h]

theorem scanAux_cons_none {fuel : Nat} {c : Char} {s' : Text}
    (h : tryMatch (c :: s') = none) :
    scanAux (fuel + 1) (c :: s') = scanAux fuel s' := by
  simp only [scanAux, h]

/-- `tryMatch` fails on any text that does not start with a digit: the
first pattern token `(\d+)` finds an empty run. -/
theorem tryMatch_none_head {c : Char} {s : Text} (h : isDigitC c = false) :
    tryMatch (c :: s) = none := by
  have h0 : matchToks itemPat caps0 (c :: s) = none :=
    matchToks_plus_stop0 (runLen_cons_neg h)
  unfold tryMatch
  rw [h0]

/-- The scan result does not depend on the fuel once the fuel covers the
input length (each step consumes at least one character). -/
theorem scanAux_congr :
    ∀ fuel₁ fuel₂ (s : Text), s.length ≤ fuel₁ → s.length ≤ fuel₂ →
      scanAux fuel₁ s = scanAux fuel₂ s := by
  intro fuel₁
  induction fuel₁ with
  | zero =>
    intro fuel₂ s h1 h2
    have : s = [] := by
      rcases s with _ | ⟨c, t⟩
      · rfl
      · simp at h1
    subst this
    rw [scanAux_nil, scanAux_nil]
  | succ f ih =>
    intro fuel₂ s h1 h2
    rcases s with _ | ⟨c, s'⟩
    · rw [scanAux_nil, scanAux_nil]
    · obtain ⟨f₂, rfl⟩ : ∃ f₂, fuel₂ = f₂ + 1 := by
        rcases fuel₂ with _ | f₂
        · simp at h2
        · exact ⟨f₂, rfl⟩
      rcases hm : tryMatch (c :: s') with _ | ⟨⟨it, r⟩⟩
      · rw [scanAux_cons_none hm, scanAux_cons_none hm]
        have := List.length_cons c s'
        exact ih f₂ s' (by simp at h1; omega) (by simp at h2; omega)
      · rw [scanAux_cons_some hm, scanAux_cons_some hm]
        have hlt := tryMatch_rest_lt hm
        simp only [List.length_cons] at hlt h1 h2
        rw [ih f₂ r (by omega) (by omega)]

/-- A rendered item line starts with a decimal digit (and not with
whitespace or `↳`). -/
theorem renderItemSpec_head (it : ChecklistItem) (h : it.number ≤ 15) :
    ∃ c t, renderItemSpec it = c :: t ∧ isDigitC c = true ∧
      isSpaceC c = false ∧ ¬c = '↳' := by
  obtain ⟨hne, hdig, -, hws, harr, -⟩ := natToChars_bounded_facts it.number h
  rcases hD : natToChars it.number with _ | ⟨d, ds⟩
  · exact absurd hD hne
  · rw [hD] at hws harr
    simp only [List.headD_cons] at hws harr
    have hx : renderItemSpec it = natToChars it.number ++
        (". ".data ++ (it.label ++ (" — ".data ++ (it.objective ++
          (" [".data ++ (it.tag ++ ("] ".data ++
            (List.replicate it.effort '★' ++
              (match it.prompt with
               | some p => "\n   ↳ Prompt: ".data ++ p
               | none => []))))))))) := by
      simp only [renderItemSpec, List.append_assoc]
    rw [hD, List.cons_append] at hx
    exact ⟨d, _, hx,
      List.all_eq_true.mp hdig d (by rw [hD]; simp), hws, harr⟩

/-- A rendered non-empty checklist starts with a decimal digit. -/
theorem renderChecklistSpec_head (it : ChecklistItem)
    (more : List ChecklistItem) (h : it.number ≤ 15) :
    ∃ c t, renderChecklistSpec (it :: more) = c :: t ∧ isDigitC c = true ∧
      isSpaceC c = false ∧ ¬c = '↳' := by
  obtain ⟨c, t, heq, h1, h2, h3⟩ := renderItemSpec_head it h
  rcases more with _ | ⟨it2, more'⟩
  · exact ⟨c, t, by simp [renderChecklistSpec, joinSep, heq], h1, h2, h3⟩
  · refine ⟨c, t ++ ('\n' :: renderChecklistSpec (it2 :: more')), ?_, h1, h2, h3⟩
    show joinSep "\n".data (List.map renderItemSpec (it :: it2 :: more')) = _
    have hj : joinSep "\n".data (List.map renderItemSpec (it :: it2 :: more')) =
        renderItemSpec it ++ "\n".data ++
          joinSep "\n".data (List.map renderItemSpec (it2 :: more')) := rfl
    have hnl : "\n".data = ['\n'] := rfl
    rw [hj, heq]
    simp [renderChecklistSpec, hnl]


/-- Scanning a rendered checklist recovers exactly the items, for any
sufficient fuel. -/
theorem parse_render_aux :
    ∀ (items : List ChecklistItem),
      (∀ it ∈ items, renderableB it = true ∧ it.number ≤ 15) →
      ∀ fuel, (renderChecklistSpec items).length ≤ fuel →
        scanAux fuel (renderChecklistSpec items) = items := by
  intro items
  induction items with
  | nil =>
    intro _ fuel _
    rw [show renderChecklistSpec [] = [] from rfl]
    exact scanAux_nil fuel
  | cons it rest ih =>
    intro hall fuel hfuel
    have hit := hall it (by simp)
    rcases rest with _ | ⟨it2, more⟩
    · have h1 : renderChecklistSpec [it] = renderItemSpec it := rfl
      rw [h1] at hfuel ⊢
      have htm := tryMatch_renderItem it [] hit.2 hit.1 (Or.inl rfl)
      rw [List.append_nil] at htm
      obtain ⟨c, t, heq, -, -, -⟩ := renderItemSpec_head it hit.2
      rw [heq] at htm hfuel ⊢
      obtain ⟨f, rfl⟩ : ∃ f, fuel = f + 1 := by
        rcases fuel with _ | f
        · simp at hfuel
        · exact ⟨f, rfl⟩
      rw [scanAux_cons_some htm, scanAux_nil]
    · have hsplit : renderChecklistSpec (it :: it2 :: more) =
          renderItemSpec it ++ ('\n' :: renderChecklistSpec (it2 :: more)) := by
        have hj : joinSep "\n".data
            (List.map renderItemSpec (it :: it2 :: more)) =
            renderItemSpec it ++ "\n".data ++
              joinSep "\n".data (List.map renderItemSpec (it2 :: more)) := rfl
        show joinSep "\n".data (List.map renderItemSpec (it :: it2 :: more)) = _
        rw [hj]
        have hnl : "\n".data = ['\n'] := rfl
        simp [renderChecklistSpec, hnl]
      obtain ⟨c2, t2, heq2, hdig2, hws2, harr2⟩ :=
        renderChecklistSpec_head it2 more (hall it2 (by simp)).2
      have htm := tryMatch_renderItem it
        ('\n' :: renderChecklistSpec (it2 :: more)) hit.2 hit.1
        (Or.inr ⟨c2, t2, by rw [heq2], hws2, harr2⟩)
      rw [← hsplit] at htm
      obtain ⟨c, t, heqh, -, -, -⟩ := renderItemSpec_head it hit.2
      have heqw : renderChecklistSpec (it :: it2 :: more) =
          c :: (t ++ ('\n' :: renderChecklistSpec (it2 :: more))) := by
        rw [hsplit, heqh]
        rfl
      rw [heqw] at htm hfuel ⊢
      simp only [List.length_cons, List.length_append] at hfuel
      obtain ⟨f, rfl⟩ : ∃ f, fuel = f + 1 := by
        rcases fuel with _ | f
        · omega
        · exact ⟨f, rfl⟩
      rw [scanAux_cons_some htm]
      obtain ⟨f2, rfl⟩ : ∃ f2, f = f2 + 1 := by
        rcases f with _ | f2
        · omega
        · exact ⟨f2, rfl⟩
      rw [scanAux_cons_none (tryMatch_none_head (by decide))]
      rw [ih (fun u hu => hall u (by simp [hu])) f2 (by omega)]

/-- C8 amended: rendering a checklist satisfying the structural invariants
*and* the grammar-compatibility conditions (labels without an em dash,
objectives without `[`, prompts without a newline, all three non-empty and
free of outer whitespace) and re-parsing it yields the original sequence. -/
theorem c8_amended_roundtrip (items : List ChecklistItem)
    (hall : items.all renderableB = true)
    (hinv : wholeInvariantsB items = true) :
    parse_checklist_text (renderChecklistSpec items) = items := by
  have hnum : ∀ it ∈ items, it.number ≤ 15 := by
    simp only [wholeInvariantsB, contiguousFrom1, Bool.and_eq_true,
      decide_eq_true_eq] at hinv
    obtain ⟨⟨⟨hlen, -⟩, -⟩, hcont⟩ := hinv
    intro it hit
    have hmem : it.number ∈ items.map (·.number) := List.mem_map_of_mem _ hit
    rw [hcont] at hmem
    have hrange := List.mem_range'_1.mp hmem
    simp only [List.length_map] at hrange
    omega
  exact parse_render_aux items
    (fun it hit => ⟨List.all_eq_true.mp hall it hit, hnum it hit⟩)
    _ (Nat.le_refl _)

/-- C8 amended witness: a concrete two-item checklist round-trips. -/
theorem c8_amended_roundtrip_witness :
    ([⟨1, "A".data, "b".data, tagPractice, 1, some "p".data⟩,
        ⟨2, "B".data, "c d".data, tagCore, 2, none⟩] :
      List ChecklistItem).all renderableB = true ∧
      wholeInvariantsB
        [⟨1, "A".data, "b".data, tagPractice, 1, some "p".data⟩,
          ⟨2, "B".data, "c d".data, tagCore, 2, none⟩] = true ∧
      parse_checklist_text (renderChecklistSpec
        [⟨1, "A".data, "b".data, tagPractice, 1, some "p".data⟩,
          ⟨2, "B".data, "c d".data, tagCore, 2, none⟩]) =
        [⟨1, "A".data, "b".data, tagPractice, 1, some "p".data⟩,
          ⟨2, "B".data, "c d".data, tagCore, 2, none⟩] :=
  ⟨by decide, by decide,
    c8_amended_roundtrip _ (by decide) (by decide)⟩

end StudyPlan
